/-
Verification development for the FINDLISTING repository: a shallow embedding
of the listing normalizer/deduplicator (src/unnamed/part_001), the workflow
entry point (runWorkflow), and the hand-rolled tool-calling agent loop
(src/src/agent.ts, runListingAgent), together with theorems settling the
behavioural claims about them.

Modelling conventions for the JavaScript semantics used by the source:
* JS numbers are modelled exactly as rationals plus a NaN marker (`JNum`).
  Every JS double is a dyadic rational, so its canonical decimal printing is
  a terminating decimal, which the model prints exactly.  Floating-point
  rounding and overflow to Infinity (beyond 1e308) are not modelled; no
  claim depends on values of that magnitude.
* `Number(string)` is modelled for decimal literals with optional sign,
  fraction and exponent (the shapes the program produces and feeds to it);
  hex literals and the word Infinity are out of scope.
* `toUpperCase` is modelled on ASCII letters (Char.toUpper); accented
  letters pass through unchanged.
-/
import Mathlib

set_option maxRecDepth 8192

/-- A JavaScript number: NaN or a finite value (modelled as an exact
rational). -/
inductive JNum where
  | nan
  | num (q : ℚ)
  deriving DecidableEq, Repr

/-- `Number.isFinite` on a `JNum`. -/
def JNum.isFinite : JNum → Bool
  | .nan => false
  | .num _ => true

/-- The JavaScript values that can sit in a raw listing record field.
Object- and array-valued fields are not modelled (the source never reads
them except through coercions whose claims do not exercise them). -/
inductive JSVal where
  | vUndef
  | vNull
  | vBool (b : Bool)
  | vNum (n : JNum)
  | vStr (s : String)
  deriving DecidableEq, Repr

/-- JS truthiness of a value. -/
def JSVal.truthy : JSVal → Bool
  | .vUndef => false
  | .vNull => false
  | .vBool b => b
  | .vNum .nan => false
  | .vNum (.num q) => q ≠ 0
  | .vStr s => s ≠ ""

/-- `v == null` (nullish test, matching `!= null` guards in the source). -/
def JSVal.isNullish : JSVal → Bool
  | .vUndef => true
  | .vNull => true
  | _ => false

/-- The whitespace characters trimmed by `String.prototype.trim` and by
`Number()` (ASCII subset; exotic Unicode spaces are not modelled). -/
def isJsWs (c : Char) : Bool :=
  c = ' ' || c = '\t' || c = '\n' || c = '\r' || c = '\x0b' || c = '\x0c'

/-- Trim on character lists: drop leading and trailing whitespace. -/
def jsTrimList (l : List Char) : List Char :=
  ((l.dropWhile isJsWs).reverse.dropWhile isJsWs).reverse

/-- `String.prototype.trim`. -/
def jsTrim (s : String) : String :=
  String.mk (jsTrimList s.data)

/-- `String.prototype.toUpperCase` (ASCII letters only). -/
def jsToUpper (s : String) : String :=
  String.mk (s.data.map Char.toUpper)

/-- `s.replace(/[^\d]/g, "")`: keep only decimal digits. -/
def filterDigits (s : String) : String :=
  String.mk (s.data.filter Char.isDigit)

/-- `s.replace(/[^\d.]/g, "")`: keep only decimal digits and dots. -/
def filterDigitsDot (s : String) : String :=
  String.mk (s.data.filter (fun c => c.isDigit || c = '.'))

/-- Digit characters to the natural number they denote (most significant
first), by Horner evaluation. -/
def digitsToNat (l : List Char) : ℕ :=
  l.foldl (fun a c => 10 * a + (c.toNat - 48)) 0

/-- Little-endian base-10 digits by fuelled structural recursion (the fuel
argument only bounds the recursion depth; with fuel at least `n` this
computes the usual digit list). -/
def natDigitsAux : ℕ → ℕ → List ℕ
  | 0, _ => []
  | _, 0 => []
  | fuel + 1, n + 1 => ((n + 1) % 10) :: natDigitsAux fuel ((n + 1) / 10)

/-- Decimal digit characters of a natural number, most significant first. -/
def natToDigitChars (n : ℕ) : List Char :=
  if n = 0 then ['0']
  else (natDigitsAux n n).reverse.map (fun d => Char.ofNat (48 + d))

/-- Decimal string of a natural number. -/
def natToDecString (n : ℕ) : String :=
  String.mk (natToDigitChars n)

/-- Exponent part of a decimal literal: the remaining characters after an
`e`/`E`, an optional sign followed by at least one digit consuming the
whole rest. -/
def parseExp (s : List Char) : Option ℤ :=
  match s with
  | '+' :: t => if t ≠ [] ∧ t.all Char.isDigit then some (digitsToNat t) else none
  | '-' :: t => if t ≠ [] ∧ t.all Char.isDigit then some (-(digitsToNat t : ℤ)) else none
  | t => if t ≠ [] ∧ t.all Char.isDigit then some (digitsToNat t) else none

/-- Value of an integer part / fraction part pair. -/
def mkDec (ip fp : List Char) : ℚ :=
  (digitsToNat ip : ℚ) + (digitsToNat fp : ℚ) / 10 ^ fp.length

/-- Unsigned decimal literal: digits, optional `.` and fraction digits,
optional exponent; the whole input must be consumed. -/
def parseDecimal (s : List Char) : Option ℚ :=
  let ip := s.takeWhile Char.isDigit
  let r1 := s.dropWhile Char.isDigit
  if r1 = [] then (if ip = [] then none else some (digitsToNat ip))
  else if r1.head? = some '.' then
    let r2 := r1.tail
    let fp := r2.takeWhile Char.isDigit
    let r3 := r2.dropWhile Char.isDigit
    if ip = [] ∧ fp = [] then none
    else if r3 = [] then some (mkDec ip fp)
    else if r3.head? = some 'e' ∨ r3.head? = some 'E' then
      (parseExp r3.tail).map (fun ex => mkDec ip fp * 10 ^ ex)
    else none
  else if r1.head? = some 'e' ∨ r1.head? = some 'E' then
    if ip = [] then none
    else (parseExp r1.tail).map (fun ex => (digitsToNat ip : ℚ) * 10 ^ ex)
  else none

/-- `Number(string)`: trim whitespace, empty means 0, otherwise an optional
sign and a decimal literal; anything else is NaN. -/
def parseNumber (s : String) : JNum :=
  let t := jsTrimList s.data
  if t = [] then .num 0
  else
    let core :=
      if t.head? = some '-' then (parseDecimal (t.drop 1)).map (fun q => -q)
      else if t.head? = some '+' then parseDecimal (t.drop 1)
      else parseDecimal t
    match core with
    | some q => .num q
    | none => .nan

/-- `Number(value)` on a JS value. -/
def jsToNumber : JSVal → JNum
  | .vUndef => .nan
  | .vNull => .num 0
  | .vBool b => .num (if b then 1 else 0)
  | .vNum n => n
  | .vStr s => parseNumber s

/-- The decimal exponent used to print a nonnegative rational: the least
`k ≤ q.den` with `q * 10 ^ k` integral (it exists whenever `q` is a
terminating decimal, in particular for every value a JS double can hold). -/
def decExpOf (q : ℚ) : ℕ :=
  ((List.range (q.den + 1)).find? (fun k => (q * 10 ^ k).den = 1)).getD 0

/-- Decimal character representation of a nonnegative terminating rational:
the digits of `q * 10 ^ k` with a dot inserted `k` places from the right
(zero-padded on the left as needed). -/
def ratToDecChars (q : ℚ) : List Char :=
  let k := decExpOf q
  let ds := natToDigitChars (q * 10 ^ k).num.toNat
  if k = 0 then ds
  else
    let padded := List.replicate (k + 1 - ds.length) '0' ++ ds
    padded.take (padded.length - k) ++ '.' :: padded.drop (padded.length - k)

/-- The exponential-notation body of `Number::toString` for a positive
magnitude given its plain decimal expansion `D`: the significant digits
with the point after the first one, then `e` and the signed decimal
exponent (ECMA-262 `Number::toString`, the cases with decimal exponent
above 21 or at most -6). -/
def expNotation (D : List Char) : String :=
  if D.head? = some '0' then
    let frac := (D.dropWhile (fun c => c ≠ '.')).tail
    let z := frac.takeWhile (fun c => c = '0')
    let sig := frac.dropWhile (fun c => c = '0')
    String.mk (sig.take 1) ++
      (if sig.tail = [] then "" else "." ++ String.mk sig.tail) ++
      "e-" ++ natToDecString (z.length + 1)
  else
    let ip := D.takeWhile (fun c => c ≠ '.')
    let fp := (D.dropWhile (fun c => c ≠ '.')).tail
    let sig0 := ((ip ++ fp).reverse.dropWhile (fun c => c = '0')).reverse
    let sig := if sig0 = [] then ['0'] else sig0
    String.mk (sig.take 1) ++
      (if sig.tail = [] then "" else "." ++ String.mk sig.tail) ++
      "e+" ++ natToDecString (ip.length - 1)

/-- `String(number)`: plain decimal notation for zero and for magnitudes in
`[1e-6, 1e21)`, exponential notation outside that range (`|q| ≥ 1e21` reads
`10 ^ 21 * q.den ≤ q.num.natAbs`, `0 < |q| < 1e-6` reads
`10 ^ 6 * q.num.natAbs < q.den`). -/
def jnumToString : JNum → String
  | .nan => "NaN"
  | .num q =>
    if q ≠ 0 ∧ (10 ^ 21 * q.den ≤ q.num.natAbs ∨ 10 ^ 6 * q.num.natAbs < q.den) then
      (if q < 0 then "-" ++ expNotation (ratToDecChars (-q)) else expNotation (ratToDecChars q))
    else
      (if q < 0 then "-" ++ String.mk (ratToDecChars (-q)) else String.mk (ratToDecChars q))

/-- A finite JS value printed in plain decimal notation by
`Number::toString`: magnitude below `1e21` and, unless zero, at least
`1e-6` (`NaN`, printing as `"NaN"`, is included). -/
def JNum.inPlainRange : JNum → Bool
  | .nan => true
  | .num q => decide (q.num.natAbs < 10 ^ 21 * q.den) &&
      (decide (q.num = 0) || decide (q.den ≤ 10 ^ 6 * q.num.natAbs))

/-- `String(value)` on the modelled JS values. -/
def jsToString : JSVal → String
  | .vUndef => "undefined"
  | .vNull => "null"
  | .vBool b => if b then "true" else "false"
  | .vNum n => jnumToString n
  | .vStr s => s

/-! ## Listing record normalizer / deduplicator (src/unnamed/part_001) -/

/-- `a ?? b` on nullable values. -/
def jsOr {α : Type} : Option α → Option α → Option α
  | some a, _ => some a
  | none, b => b

/-- Truthiness of a `string | null` value (`null` and the empty string are
falsy). -/
def strTruthy : Option String → Bool
  | none => false
  | some s => s ≠ ""

/-- `first(...vals)`: the first non-nullish value, else `null`
(`vals.find((v) => v != null) ?? null`). -/
def firstVal (vals : List JSVal) : JSVal :=
  (vals.find? (fun v => !v.isNullish)).getD .vNull

/-- `first` restricted to the `string | null` fields it is applied to on the
price-text path. -/
def firstStr (a b c : Option String) : Option String :=
  jsOr a (jsOr b c)

/-- `numberFromPriceLike`: digits-only coercion of a free-text price; `null`
on falsy input, on an all-non-digit string, and on a non-finite result. -/
def numberFromPriceLike (s : Option String) : Option JNum :=
  match s with
  | none => none
  | some str =>
    if str = "" then none
    else
      let raw := filterDigits str
      if raw = "" then none
      else
        let n := parseNumber raw
        if n.isFinite then some n else none

/-- A raw listing record: the fixed set of keys the normalizer reads.  The
three free-text price aliases are typed `string | null` as in
`numberFromPriceLike`'s signature.  `MLSreg` models the `MLS®` key. -/
structure RawRecord where
  mls : JSVal := .vUndef
  MLS : JSVal := .vUndef
  listingId : JSVal := .vUndef
  listing_id : JSVal := .vUndef
  MLSreg : JSVal := .vUndef
  url : JSVal := .vUndef
  address : JSVal := .vUndef
  beds : JSVal := .vUndef
  baths : JSVal := .vUndef
  type : JSVal := .vUndef
  note_fr : JSVal := .vUndef
  note_en : JSVal := .vUndef
  price : JSVal := .vUndef
  priceText : Option String := none
  price_str : Option String := none
  askingPrice : Option String := none
  deriving DecidableEq, Repr

/-- An element of the `unknown[]` input list: either a non-object entry
(skipped by the loop) or an object-shaped record. -/
inductive RawItem where
  | junk
  | obj (r : RawRecord)
  deriving DecidableEq, Repr

/-- The canonical normalized listing shape. -/
structure NormalizedListing where
  mls : String
  url : Option String
  address : Option String
  price : Option JNum
  beds : Option JNum
  baths : Option JNum
  type : Option String
  note_fr : Option String
  note_en : Option String
  deriving DecidableEq, Repr

/-- The bilingual identifier sentinel. -/
def mlsSentinel : String := "MLS non trouvé / MLS not found"

/-- The cap on distinct normalized records. -/
def MAX_LISTINGS : ℕ := 12

/-- `record.f ? String(record.f).trim() : null` for the string-ish fields. -/
def trimIfTruthy (v : JSVal) : Option String :=
  if v.truthy then some (jsTrim (jsToString v)) else none

/-- The coerced identifier: first present alias, stringified and trimmed if
truthy (`const mls = mlsRaw ? String(mlsRaw).trim() : null`). -/
def resolveMls (r : RawRecord) : Option String :=
  let mlsRaw := firstVal [r.mls, r.MLS, r.listingId, r.listing_id, r.MLSreg]
  if mlsRaw.truthy then some (jsTrim (jsToString mlsRaw)) else none

/-- The per-record field coercion of the normalization loop body. -/
def normalizeRecord (r : RawRecord) : NormalizedListing :=
  let mls := resolveMls r
  let url := trimIfTruthy r.url
  let address := trimIfTruthy r.address
  let beds :=
    if r.beds.isNullish then none
    else some (parseNumber (filterDigits (jsToString r.beds)))
  let baths :=
    if r.baths.isNullish then none
    else some (parseNumber (filterDigitsDot (jsToString r.baths)))
  let type := trimIfTruthy r.type
  let note_fr := trimIfTruthy r.note_fr
  let note_en := trimIfTruthy r.note_en
  let price :=
    if !r.price.isNullish then some (jsToNumber r.price)
    else numberFromPriceLike (firstStr r.priceText r.price_str r.askingPrice)
  { mls := (jsOr mls (some mlsSentinel)).getD ""
    url := url
    address := address
    price := price
    beds := beds
    baths := baths
    type := type
    note_fr := note_fr
    note_en := note_en }

/-- The dedup identity key:
`mls ? "MLS:"+mls.toUpperCase() : url ? "URL:"+url : "IDX:"+out.length`. -/
def recordKey (r : RawRecord) (outLen : ℕ) : String :=
  match resolveMls r, trimIfTruthy r.url with
  | some m, _ =>
    if m ≠ "" then "MLS:" ++ jsToUpper m
    else
      match trimIfTruthy r.url with
      | some u => if u ≠ "" then "URL:" ++ u else "IDX:" ++ natToDecString outLen
      | none => "IDX:" ++ natToDecString outLen
  | none, some u => if u ≠ "" then "URL:" ++ u else "IDX:" ++ natToDecString outLen
  | none, none => "IDX:" ++ natToDecString outLen

/-- The duplicate-merge: keep the first-seen record, fill each absent scalar
field from the incoming duplicate (`prior.f ?? normalized.f`); `mls` and
`url` are carried over from the prior record unchanged. -/
def mergeListing (prior incoming : NormalizedListing) : NormalizedListing :=
  { prior with
    address := jsOr prior.address incoming.address
    price := jsOr prior.price incoming.price
    beds := jsOr prior.beds incoming.beds
    baths := jsOr prior.baths incoming.baths
    type := jsOr prior.type incoming.type
    note_fr := jsOr prior.note_fr incoming.note_fr
    note_en := jsOr prior.note_en incoming.note_en }

/-- The normalization loop.  `seen` is the key-to-index map (association
list), `out` the accumulated output.  Non-object items are skipped by
`continue` (which also skips the cap check); after processing an object the
loop breaks once `out` has reached `MAX_LISTINGS` entries. -/
def normGo : List RawItem → List (String × ℕ) → List NormalizedListing → List NormalizedListing
  | [], _, out => out
  | .junk :: rest, seen, out => normGo rest seen out
  | .obj r :: rest, seen, out =>
    let normalized := normalizeRecord r
    let key := recordKey r out.length
    let next :=
      match seen.lookup key with
      | none => ((key, out.length) :: seen, out ++ [normalized])
      | some idx =>
        match out[idx]? with
        | some prior => (seen, out.set idx (mergeListing prior normalized))
        | none => (seen, out)  -- unreachable: the map stores only indices of pushed records
    if next.2.length ≥ MAX_LISTINGS then next.2 else normGo rest next.1 next.2

/-- `normalizeAndDedupeListings` (src/unnamed/part_001, lines 107-169). -/
def normalizeAndDedupeListings (items : List RawItem) : List NormalizedListing :=
  (normGo items [] []).take MAX_LISTINGS

/-- A `string | null` field value as a JS value. -/
def optStrToJS : Option String → JSVal
  | some s => .vStr s
  | none => .vNull

/-- A `number | null` field value as a JS value. -/
def optNumToJS : Option JNum → JSVal
  | some n => .vNum n
  | none => .vNull

/-- The JS-value view of a normalized listing object, as the normalizer
itself would read it back (absent fields are `null` on the object). -/
def toRaw (nl : NormalizedListing) : RawRecord :=
  { mls := .vStr nl.mls
    url := optStrToJS nl.url
    address := optStrToJS nl.address
    price := optNumToJS nl.price
    beds := optNumToJS nl.beds
    baths := optNumToJS nl.baths
    type := optStrToJS nl.type
    note_fr := optStrToJS nl.note_fr
    note_en := optStrToJS nl.note_en }

/-! ## JSON values, `JSON.stringify` and `JSON.parse` -/

/-- A parsed JSON value.  NaN never occurs here: `JSON.stringify` writes
NaN as `null`, and `JSON.parse` only produces finite numerals. -/
inductive Json where
  | null
  | bool (b : Bool)
  | num (q : ℚ)
  | str (s : String)
  | arr (elems : List Json)
  | obj (fields : List (String × Json))
  deriving Repr

/-- Lowercase hexadecimal digit. -/
def hexDigitChar (n : ℕ) : Char :=
  if n < 10 then Char.ofNat (48 + n) else Char.ofNat (87 + n)

/-- `JSON.stringify` escaping of one string character. -/
def jsonEscapeChar (c : Char) : String :=
  if c = '"' then "\\\""
  else if c = '\\' then "\\\\"
  else if c = '\x08' then "\\b"
  else if c = '\x09' then "\\t"
  else if c = '\x0a' then "\\n"
  else if c = '\x0c' then "\\f"
  else if c = '\x0d' then "\\r"
  else if c.toNat < 32 then "\\u00" ++ String.mk [hexDigitChar (c.toNat / 16), hexDigitChar (c.toNat % 16)]
  else String.mk [c]

/-- `JSON.stringify` escaping of a whole string body. -/
def jsonEscape (s : String) : String :=
  s.data.foldl (fun acc c => acc ++ jsonEscapeChar c) ""

/-- A JSON string literal: quotes around the escaped body. -/
def jsonQuote (s : String) : String :=
  "\"" ++ jsonEscape s ++ "\""

mutual

/-- Compact `JSON.stringify` (no indent argument). -/
def jsonStringify : Json → String
  | .null => "null"
  | .bool b => if b then "true" else "false"
  | .num q => jnumToString (.num q)
  | .str s => jsonQuote s
  | .arr es => "[" ++ stringifyElems es ++ "]"
  | .obj fs => "\x7b" ++ stringifyFields fs ++ "\x7d"

/-- Comma-joined serialized array elements. -/
def stringifyElems : List Json → String
  | [] => ""
  | [j] => jsonStringify j
  | j :: rest => jsonStringify j ++ "," ++ stringifyElems rest

/-- Comma-joined serialized object entries. -/
def stringifyFields : List (String × Json) → String
  | [] => ""
  | [(k, v)] => jsonQuote k ++ ":" ++ jsonStringify v
  | (k, v) :: rest => jsonQuote k ++ ":" ++ jsonStringify v ++ "," ++ stringifyFields rest

end

mutual

/-- `JSON.stringify(x, null, 2)`: two-space-indented form; `ind` is the
current indentation of the enclosing value. -/
def jsonPretty (ind : String) : Json → String
  | .arr [] => "[]"
  | .obj [] => "\x7b\x7d"
  | .arr es => "[\n" ++ prettyElems (ind ++ "  ") es ++ "\n" ++ ind ++ "]"
  | .obj fs => "\x7b\n" ++ prettyFields (ind ++ "  ") fs ++ "\n" ++ ind ++ "\x7d"
  | j => jsonStringify j

/-- Indented array elements, one per line. -/
def prettyElems (ind : String) : List Json → String
  | [] => ""
  | [j] => ind ++ jsonPretty ind j
  | j :: rest => ind ++ jsonPretty ind j ++ ",\n" ++ prettyElems ind rest

/-- Indented object entries, one per line. -/
def prettyFields (ind : String) : List (String × Json) → String
  | [] => ""
  | [(k, v)] => ind ++ jsonQuote k ++ ": " ++ jsonPretty ind v
  | (k, v) :: rest => ind ++ jsonQuote k ++ ": " ++ jsonPretty ind v ++ ",\n" ++ prettyFields ind rest

end

/-- JSON whitespace. -/
def skipWs (l : List Char) : List Char :=
  l.dropWhile (fun c => c = ' ' || c = '\t' || c = '\n' || c = '\r')

/-- Value of a hexadecimal digit character. -/
def hexVal (c : Char) : ℕ :=
  if c.isDigit then c.toNat - 48
  else if 'a' ≤ c ∧ c ≤ 'f' then c.toNat - 87
  else if 'A' ≤ c ∧ c ≤ 'F' then c.toNat - 55
  else 0

/-- Is a hexadecimal digit character. -/
def isHexDigit (c : Char) : Bool :=
  c.isDigit || ('a' ≤ c && c ≤ 'f') || ('A' ≤ c && c ≤ 'F')

/-- Body of a JSON string literal after the opening quote: the decoded
characters and the remainder after the closing quote.  Surrogate-pair
`\uXXXX` recombination is not modelled. -/
def jstrChars : List Char → Option (List Char × List Char)
  | [] => none
  | '"' :: rest => some ([], rest)
  | '\\' :: 'u' :: h1 :: h2 :: h3 :: h4 :: rest =>
    if isHexDigit h1 && isHexDigit h2 && isHexDigit h3 && isHexDigit h4 then
      (jstrChars rest).map (fun (cs, r) =>
        (Char.ofNat (((hexVal h1 * 16 + hexVal h2) * 16 + hexVal h3) * 16 + hexVal h4) :: cs, r))
    else none
  | '\\' :: e :: rest =>
    let dec : Option Char :=
      if e = '"' then some '"'
      else if e = '\\' then some '\\'
      else if e = '/' then some '/'
      else if e = 'b' then some '\x08'
      else if e = 'f' then some '\x0c'
      else if e = 'n' then some '\n'
      else if e = 'r' then some '\x0d'
      else if e = 't' then some '\t'
      else none
    match dec with
    | none => none
    | some c => (jstrChars rest).map (fun (cs, r) => (c :: cs, r))
  | c :: rest => (jstrChars rest).map (fun (cs, r) => (c :: cs, r))

/-- A JSON numeral, consuming as many characters as it spans (strictness
about leading zeros is not modelled). -/
def parseJNumber (l : List Char) : Option (ℚ × List Char) :=
  let (neg, l1) := match l with | '-' :: t => (true, t) | t => (false, t)
  let ip := l1.takeWhile Char.isDigit
  let l2 := l1.dropWhile Char.isDigit
  if ip = [] then none
  else
    let withFrac : Option (ℚ × List Char) :=
      match l2 with
      | '.' :: t =>
        let fp := t.takeWhile Char.isDigit
        if fp = [] then none
        else some (mkDec ip fp, t.dropWhile Char.isDigit)
      | _ => some ((digitsToNat ip : ℚ), l2)
    match withFrac with
    | none => none
    | some (q0, l3) =>
      let withExp : Option (ℚ × List Char) :=
        match l3 with
        | 'e' :: t | 'E' :: t =>
          let (eneg, t1) := match t with | '-' :: u => (true, u) | '+' :: u => (false, u) | u => (false, u)
          let ed := t1.takeWhile Char.isDigit
          if ed = [] then none
          else
            let ex : ℤ := if eneg then -(digitsToNat ed : ℤ) else (digitsToNat ed : ℤ)
            some (q0 * 10 ^ ex, t1.dropWhile Char.isDigit)
        | _ => some (q0, l3)
      withExp.map (fun (q, r) => (if neg then -q else q, r))

mutual

/-- Fuel-bounded recursive-descent JSON value. -/
def parseJValue : ℕ → List Char → Option (Json × List Char)
  | 0, _ => none
  | fuel + 1, l =>
    match skipWs l with
    | 'n' :: 'u' :: 'l' :: 'l' :: r => some (.null, r)
    | 't' :: 'r' :: 'u' :: 'e' :: r => some (.bool true, r)
    | 'f' :: 'a' :: 'l' :: 's' :: 'e' :: r => some (.bool false, r)
    | '"' :: r => (jstrChars r).map (fun (cs, rest) => (.str (String.mk cs), rest))
    | '[' :: r =>
      match skipWs r with
      | ']' :: r2 => some (.arr [], r2)
      | _ => (parseJElems fuel r).map (fun (es, rest) => (.arr es, rest))
    | '\x7b' :: r =>
      match skipWs r with
      | '\x7d' :: r2 => some (.obj [], r2)
      | _ => (parseJFields fuel r).map (fun (fs, rest) => (.obj fs, rest))
    | other => (parseJNumber other).map (fun (q, rest) => (.num q, rest))

/-- One-or-more comma-separated array elements up to `]`. -/
def parseJElems : ℕ → List Char → Option (List Json × List Char)
  | 0, _ => none
  | fuel + 1, l =>
    match parseJValue fuel l with
    | none => none
    | some (v, r) =>
      match skipWs r with
      | ',' :: r2 => (parseJElems fuel r2).map (fun (es, rest) => (v :: es, rest))
      | ']' :: r2 => some ([v], r2)
      | _ => none

/-- One-or-more comma-separated object entries up to the closing brace. -/
def parseJFields : ℕ → List Char → Option (List (String × Json) × List Char)
  | 0, _ => none
  | fuel + 1, l =>
    match skipWs l with
    | '"' :: r =>
      match jstrChars r with
      | none => none
      | some (kcs, r1) =>
        match skipWs r1 with
        | ':' :: r2 =>
          match parseJValue fuel r2 with
          | none => none
          | some (v, r3) =>
            match skipWs r3 with
            | ',' :: r4 => (parseJFields fuel r4).map (fun (fs, rest) => ((String.mk kcs, v) :: fs, rest))
            | '\x7d' :: r4 => some ([(String.mk kcs, v)], r4)
            | _ => none
        | _ => none
    | _ => none

end

/-- `JSON.parse`, `none` on a syntax error. -/
def jsonParse (s : String) : Option Json :=
  match parseJValue (s.length + 1) s.data with
  | some (v, rest) => if skipWs rest = [] then some v else none
  | none => none

/-- Property read `value[k]` where duplicate keys resolve to the last one,
as in `JSON.parse`; reads on non-objects are modelled as absent (in JS a
read on `null` would throw a TypeError instead). -/
def jGet (j : Json) (k : String) : Option Json :=
  match j with
  | .obj fs => (fs.reverse.find? (fun f => f.1 == k)).map (fun f => f.2)
  | _ => none

/-! ## Workflow entry point (src/unnamed/part_001, runWorkflow) -/

/-- One guardrail check outcome.  Only the tripwire flag is modelled; the
diagnostic payload (`info`, `executionFailed`) feeds only the failure
object builder, which no claim exercises.  The local shim
(src/unnamed/part_000) always returns the empty result list. -/
structure GuardrailResult where
  tripwireTriggered : Option Bool := none
  deriving DecidableEq, Repr

/-- The local `runGuardrails` shim: no tripwires ever. -/
def runGuardrailsShim (_input : String) : List GuardrailResult := []

/-- `guardrailsHasTripwire`. -/
def guardrailsHasTripwire (results : List GuardrailResult) : Bool :=
  results.any (fun r => r.tripwireTriggered == some true)

/-- The fallback location. -/
def DEFAULT_LOCATION : String := "Laval, QC"

/-- `toCleanString`: trimmed string value, `""` for anything non-string. -/
def toCleanString (v : JSVal) : String :=
  match v with
  | .vStr s => jsTrim s
  | _ => ""

/-- The search criteria assembled per request. -/
structure ListingCriteria where
  location : String
  priceMin : String
  priceMax : String
  beds : String
  baths : String
  type : String
  keywords : String
  deriving DecidableEq, Repr

/-- A value/label pair of the fixed select-option tables. -/
structure SelectOption where
  value : String
  label : String
  deriving DecidableEq, Repr

/-- `TYPE_OPTIONS`. -/
def TYPE_OPTIONS : List SelectOption :=
  [⟨"", "Any type / Tout type"⟩, ⟨"house", "House / Maison"⟩,
   ⟨"condo", "Condo / Copropriété"⟩, ⟨"multiplex", "Multiplex / Plex"⟩,
   ⟨"land", "Land / Terrain"⟩, ⟨"commercial", "Commercial"⟩]

/-- `BEDS_OPTIONS`. -/
def BEDS_OPTIONS : List SelectOption :=
  [⟨"", "Beds: Any / Chambres: Peu importe"⟩, ⟨"1", "1+"⟩, ⟨"2", "2+"⟩,
   ⟨"3", "3+"⟩, ⟨"4", "4+"⟩, ⟨"5", "5+"⟩]

/-- `BATHS_OPTIONS`. -/
def BATHS_OPTIONS : List SelectOption :=
  [⟨"", "Baths: Any / Salles de bain: Peu importe"⟩, ⟨"1", "1+"⟩,
   ⟨"2", "2+"⟩, ⟨"3", "3+"⟩]

/-- The `input_variables` mapping: the keys the workflow reads.  `listings`
is `some l` exactly when the value passes `Array.isArray`. -/
structure InputVariables where
  location : JSVal := .vUndef
  priceMin : JSVal := .vUndef
  priceMax : JSVal := .vUndef
  beds : JSVal := .vUndef
  baths : JSVal := .vUndef
  type : JSVal := .vUndef
  keywords : JSVal := .vUndef
  listings : Option (List RawItem) := none
  deriving DecidableEq, Repr

/-- The workflow request payload. -/
structure WorkflowInput where
  input_as_text : String
  input_variables : Option InputVariables := none
  deriving DecidableEq, Repr

/-- The success-path output object. -/
structure WorkflowOutput where
  title : String
  criteria : ListingCriteria
  typeOptions : List SelectOption
  bedsOptions : List SelectOption
  bathsOptions : List SelectOption
  hasResults : Bool
  resultsJson : String
  deriving DecidableEq, Repr

/-- JSON encoding of an optional JS number field (NaN serializes as
`null`). -/
def encodeOptJNum : Option JNum → Json
  | none => .null
  | some .nan => .null
  | some (.num q) => .num q

/-- JSON encoding of an optional string field. -/
def encodeOptStr : Option String → Json
  | none => .null
  | some s => .str s

/-- JSON encoding of a normalized listing, keys in construction order. -/
def encodeListing (nl : NormalizedListing) : Json :=
  .obj [("mls", .str nl.mls), ("url", encodeOptStr nl.url),
        ("address", encodeOptStr nl.address), ("price", encodeOptJNum nl.price),
        ("beds", encodeOptJNum nl.beds), ("baths", encodeOptJNum nl.baths),
        ("type", encodeOptStr nl.type), ("note_fr", encodeOptStr nl.note_fr),
        ("note_en", encodeOptStr nl.note_en)]

/-- `buildResultsJson`: the pretty-printed payload wrapped in a quoted
fenced code block. -/
def buildResultsJson (listings : List NormalizedListing) : String :=
  let payload : Json :=
    .obj [("listings", .arr (listings.map encodeListing)),
          ("schema", .obj [("mls", .str "string"), ("url", .str "string"),
                           ("price", .str "number (CAD)"), ("note_en", .str "string"),
                           ("note_fr", .str "string")])]
  "\x27" ++ "\x60\x60\x60json\n" ++ jsonPretty "" payload ++ "\n\x60\x60\x60" ++ "\x27"

/-- JSON encoding of the criteria object, keys in construction order. -/
def encodeCriteria (c : ListingCriteria) : Json :=
  .obj [("location", .str c.location), ("priceMin", .str c.priceMin),
        ("priceMax", .str c.priceMax), ("beds", .str c.beds),
        ("baths", .str c.baths), ("type", .str c.type),
        ("keywords", .str c.keywords)]

/-- JSON encoding of a select option. -/
def encodeSelectOption (o : SelectOption) : Json :=
  .obj [("value", .str o.value), ("label", .str o.label)]

/-- JSON encoding of the workflow output object, keys in construction
order. -/
def encodeOutput (o : WorkflowOutput) : Json :=
  .obj [("title", .str o.title), ("criteria", encodeCriteria o.criteria),
        ("typeOptions", .arr (o.typeOptions.map encodeSelectOption)),
        ("bedsOptions", .arr (o.bedsOptions.map encodeSelectOption)),
        ("bathsOptions", .arr (o.bathsOptions.map encodeSelectOption)),
        ("hasResults", .bool o.hasResults), ("resultsJson", .str o.resultsJson)]

/-- Outcome of `runWorkflow`: the guardrail-failure payload (whose detailed
shaping by `buildGuardrailFailOutput` is not modelled) or the success
object. -/
inductive WorkflowResult where
  | guardrailFail (results : List GuardrailResult)
  | ok (output_text : String) (output_parsed : WorkflowOutput)
  deriving Repr

/-- `runWorkflow`, parameterized by the awaited `runGuardrails` result (the
shim in this repository always supplies `[]`). -/
def runWorkflow (guardrailsResult : List GuardrailResult) (workflow : WorkflowInput) : WorkflowResult :=
  if guardrailsHasTripwire guardrailsResult then .guardrailFail guardrailsResult
  else
    let vars := workflow.input_variables.getD {}
    let loc := toCleanString vars.location
    let criteria : ListingCriteria :=
      { location := if loc = "" then DEFAULT_LOCATION else loc
        priceMin := toCleanString vars.priceMin
        priceMax := toCleanString vars.priceMax
        beds := toCleanString vars.beds
        baths := toCleanString vars.baths
        type := toCleanString vars.type
        keywords := toCleanString (if vars.keywords.truthy then vars.keywords else .vStr workflow.input_as_text) }
    let listingsInput := vars.listings.getD []
    let listings := normalizeAndDedupeListings listingsInput
    let output : WorkflowOutput :=
      { title := "Québec Listings • Annonces Québec"
        criteria := criteria
        typeOptions := TYPE_OPTIONS
        bedsOptions := BEDS_OPTIONS
        bathsOptions := BATHS_OPTIONS
        hasResults := decide (0 < listings.length)
        resultsJson := buildResultsJson listings }
    .ok (jsonStringify (encodeOutput output)) output

/-! ## Tool-calling agent loop (src/src/agent.ts, runListingAgent) -/

/-- A tool invocation request from a model response. -/
structure ToolCall where
  id : String
  name : String
  arguments : String
  deriving DecidableEq, Repr

/-- A conversation message. -/
structure ChatMsg where
  role : String
  content : String
  tool_call_id : Option String := none
  tool_calls : Option (List ToolCall) := none
  deriving DecidableEq, Repr

/-- The message of a response choice; `content` may be `null` at runtime,
hence optional. -/
structure ChoiceMessage where
  content : Option String := none
  tool_calls : Option (List ToolCall) := none
  deriving DecidableEq, Repr

/-- A chat-completion choice. -/
structure Choice where
  finish_reason : String
  message : Option ChoiceMessage := none
  deriving DecidableEq, Repr

/-- What one call to the chat-completion endpoint produces: a thrown
transport/API error (its message string), a response without choices, or
its first choice. -/
inductive ModelTurn where
  | apiError (message : String)
  | noChoices
  | choice (c : Choice)
  deriving DecidableEq, Repr

/-- A filtered entry of the final `sources` array. -/
structure AgentSource where
  title : Option String
  url : String
  details : Option String
  deriving DecidableEq, Repr

/-- The result shape `runListingAgent` resolves with.  `listings` carries
the raw JSON records from the model's final answer, untyped as in the
source. -/
structure AgentRunResult where
  listings : List Json
  sources : List AgentSource
  notes_en : Option String
  notes_fr : Option String
  warnings : List String
  rawResponse : Option String
  deriving Repr

/-- The registered tool adapter names. -/
def registeredToolNames : List String := ["search_listings", "fetch_listing_page"]

/-- Resolve and execute one tool call.  The two registered executors are
external I/O and are modelled by the oracle `exec` from tool name and
parsed argument object to result object; `safeJsonParse` of the argument
payload (empty object on parse failure) is part of the code. -/
def toolResultJson (exec : String → Json → Json) (tc : ToolCall) : Json :=
  if registeredToolNames.contains tc.name then
    let argStr := if tc.arguments = "" then "\x7b\x7d" else tc.arguments
    let args := (jsonParse argStr).getD (.obj [])
    exec tc.name args
  else .obj [("error", .str ("Unknown tool " ++ tc.name))]

/-- The tool-role message appended for one tool call. -/
def toolResponseMsg (exec : String → Json → Json) (tc : ToolCall) : ChatMsg :=
  { role := "tool", content := jsonStringify (toolResultJson exec tc), tool_call_id := some tc.id }

/-- The `sources` extraction of the completion branch: object entries with
a string `url`, kept only when the url is non-empty (the final
`Boolean(item && item.url)` filter). -/
def extractSources (parsed : Json) : List AgentSource :=
  let sourcesRaw := match jGet parsed "sources" with | some (.arr es) => es | _ => []
  sourcesRaw.filterMap (fun s =>
    match jGet s "url" with
    | some (.str u) =>
      if u = "" then none
      else some { title := match jGet s "title" with | some (.str t) => some t | _ => none
                  url := u
                  details := match jGet s "details" with | some (.str d) => some d | _ => none }
    | _ => none)

/-- The completion branch: parse the final content (empty object on
failure) and extract the structured fields. -/
def completionResult (warns : List String) (raw : String) : AgentRunResult :=
  let parsed := (jsonParse raw).getD (.obj [])
  { listings := match jGet parsed "listings" with | some (.arr es) => es | _ => []
    sources := extractSources parsed
    notes_en := match jGet parsed "notes_en" with | some (.str s) => some s | _ => none
    notes_fr := match jGet parsed "notes_fr" with | some (.str s) => some s | _ => none
    warnings := warns
    rawResponse := some raw }

/-- The empty result returned on every non-completion exit. -/
def failResult (warns : List String) : AgentRunResult :=
  { listings := [], sources := [], notes_en := none, notes_fr := none,
    warnings := warns, rawResponse := none }

/-- The step budget. -/
def MAX_AGENT_STEPS : ℕ := 6

/-- A run of the loop: its result, the number of chat-completion requests
issued, and the final conversation. -/
structure AgentRunTrace where
  result : AgentRunResult
  calls : ℕ
  messages : List ChatMsg
  deriving Repr

/-- The `while (iterations < MAX_AGENT_STEPS)` loop.  `responses i` is the
outcome of the `i`-th (0-based) chat-completion request; `budget` is the
number of iterations left, `calls` the number of requests already
issued. -/
def agentGo (exec : String → Json → Json) (responses : ℕ → ModelTurn) :
    ℕ → List ChatMsg → List String → ℕ → AgentRunTrace
  | 0, msgs, warns, calls => ⟨failResult warns, calls, msgs⟩
  | budget + 1, msgs, warns, calls =>
    match responses calls with
    | .apiError e => ⟨failResult (warns ++ [e]), calls + 1, msgs⟩
    | .noChoices => ⟨failResult (warns ++ ["OpenAI API returned no choices"]), calls + 1, msgs⟩
    | .choice c =>
      let message := c.message.getD { content := some "", tool_calls := none }
      let toolCalls := message.tool_calls.getD []
      if toolCalls ≠ [] then
        let msgs' := msgs
          ++ [{ role := "assistant", content := message.content.getD "",
                tool_calls := some toolCalls }]
          ++ toolCalls.map (toolResponseMsg exec)
        agentGo exec responses budget msgs' warns (calls + 1)
      else if c.finish_reason = "stop" ∨ c.finish_reason = "length" then
        ⟨completionResult warns (message.content.getD ""), calls + 1, msgs⟩
      else if c.finish_reason = "content_filter" then
        ⟨failResult (warns ++ ["OpenAI content filter blocked the response"]), calls + 1, msgs⟩
      else
        ⟨failResult (warns ++ ["Unexpected finish reason: " ++ c.finish_reason]), calls + 1, msgs⟩

/-- The fixed part of the system prompt, up to the interpolated criteria
summary. -/
def promptBody : String :=
  "You are an expert bilingual (English and French) real estate research agent focused on the Greater Montreal Area (including Montreal, Laval, Longueuil, South Shore, and North Shore).\n" ++
  "Your job is to find active residential real estate listings that match the user\x27s request.\n" ++
  "Use the available tools to search the public web, open promising results, and extract structured data.\n" ++
  "\nWhen evaluating results:\n- Prioritize reputable Canadian real estate sources (Realtor.ca, Centris.ca, Royal LePage, Sutton, etc.).\n" ++
  "- Only report listings that are clearly located in Quebec within the Greater Montreal Area.\n" ++
  "- Prefer the newest or most recently updated listings when multiple matches exist.\n" ++
  "- Ensure that each listing includes its official MLS number (MLS®, Centris #, or listing ID) if available. If unavailable after verification, set the value to \"MLS non trouvé / MLS not found\".\n" ++
  "\nWhen you have enough information, respond with **only** valid JSON using this structure:\n" ++
  "\x7b\n  \"listings\": [\n    \x7b\n      \"mls\": \"string\",\n" ++
  "      \"url\": \"https://...\",\n      \"address\": \"Full street address, city\",\n" ++
  "      \"price\": 0,\n      \"beds\": 0,\n      \"baths\": 0,\n" ++
  "      \"type\": \"Property type\",\n" ++
  "      \"note_en\": \"Short English summary highlighting key facts\",\n" ++
  "      \"note_fr\": \"Courte description en français\",\n" ++
  "      \"source\": \"Source name\"\n" ++
  "    \x7d\n  ],\n  \"notes_en\": \"Any important caveats or reminders in English\",\n" ++
  "  \"notes_fr\": \"Notes importantes en français\",\n  \"sources\": [\n" ++
  "    \x7b \"title\": \"Result title\", \"url\": \"https://...\" \x7d\n" ++
  "  ]\n\x7d\n\nIf you cannot find any suitable listings, return empty arrays but still respect the JSON schema.\n" ++
  "Criteria provided by the user:\n"

/-- The joined bullet list of provided criteria. -/
def criteriaSummary (c : ListingCriteria) : String :=
  String.intercalate "\n" (([
    if c.location ≠ "" then some ("• Location: " ++ c.location) else none,
    if c.type ≠ "" then some ("• Property type: " ++ c.type) else none,
    if c.priceMin ≠ "" ∨ c.priceMax ≠ "" then
      some ("• Budget: " ++ (if c.priceMin ≠ "" then c.priceMin else "Any") ++ " - " ++
            (if c.priceMax ≠ "" then c.priceMax else "Any") ++ " CAD")
    else none,
    if c.beds ≠ "" then some ("• Bedrooms: " ++ c.beds ++ "+") else none,
    if c.baths ≠ "" then some ("• Bathrooms: " ++ c.baths ++ "+") else none,
    if c.keywords ≠ "" then some ("• Keywords: " ++ c.keywords) else none
  ] : List (Option String)).filterMap id)

/-- `buildSystemPrompt`. -/
def buildSystemPrompt (c : ListingCriteria) : String :=
  let s := criteriaSummary c
  promptBody ++ (if s = "" then "• No additional filters provided" else s)

/-- The seeded conversation. -/
def initialMessages (prompt : String) (criteria : ListingCriteria) : List ChatMsg :=
  [{ role := "system", content := buildSystemPrompt criteria },
   { role := "user", content := "User request: " ++ prompt ++ "\nRemember to return only JSON." }]

/-- `runListingAgent`.  `hasApiKey` models the presence of
`OPENAI_API_KEY`; `exec` and `responses` are the external tool executors
and the chat-completion endpoint (one outcome per issued request). -/
def runListingAgent (hasApiKey : Bool) (exec : String → Json → Json)
    (responses : ℕ → ModelTurn) (prompt : String) (criteria : ListingCriteria) : AgentRunTrace :=
  if !hasApiKey then
    ⟨{ listings := [], sources := [], notes_en := none, notes_fr := none,
       warnings := ["OPENAI_API_KEY is not configured"], rawResponse := none }, 0, []⟩
  else
    agentGo exec responses MAX_AGENT_STEPS (initialMessages prompt criteria) [] 0

/-! ## Auxiliary predicates and concrete fixtures -/

/-- `s.includes sub`: substring containment. -/
def strContains (s sub : String) : Prop :=
  sub.data <:+: s.data

instance (s sub : String) : Decidable (strContains s sub) :=
  List.decidableInfix sub.data s.data

/-- Does a model turn carry a `stop`/`length` finish reason? -/
def isStopOrLength : ModelTurn → Bool
  | .choice c => c.finish_reason == "stop" || c.finish_reason == "length"
  | _ => false

/-- The tool-role message produced for an unrecognized tool call. -/
def toolErrorMsg (tc : ToolCall) : ChatMsg :=
  { role := "tool",
    content := jsonStringify (.obj [("error", .str ("Unknown tool " ++ tc.name))]),
    tool_call_id := some tc.id }

/-- Invariants every record produced by the normalizer satisfies: string
fields are trim-stable, `beds` is a natural number, `baths` is NaN or a
nonnegative terminating decimal. -/
structure GoodListing (nl : NormalizedListing) : Prop where
  mlsTrim : jsTrim nl.mls = nl.mls
  urlTrim : ∀ s, nl.url = some s → jsTrim s = s
  addressTrim : ∀ s, nl.address = some s → jsTrim s = s
  typeTrim : ∀ s, nl.type = some s → jsTrim s = s
  noteFrTrim : ∀ s, nl.note_fr = some s → jsTrim s = s
  noteEnTrim : ∀ s, nl.note_en = some s → jsTrim s = s
  bedsNat : ∀ j, nl.beds = some j → ∃ n : ℕ, j = .num n
  bathsDec : ∀ q, nl.baths = some (.num q) → 0 ≤ q ∧ ∃ k, (q * 10 ^ k).den = 1

/-- A one-field raw item with the given identifier string. -/
def mkMlsItem (s : String) : RawItem :=
  .obj { mls := .vStr s }

/-- A tool-executor oracle returning a fixed empty object. -/
def trivialExec : String → Json → Json := fun _ _ => .obj []

/-- A model turn requesting one call of the registered search tool. -/
def searchToolTurn : ModelTurn :=
  .choice { finish_reason := "tool_calls",
            message := some { content := none,
                              tool_calls := some [⟨"call1", "search_listings", "\x7b\x7d"⟩] } }

/-- Empty criteria fixture. -/
def emptyCriteria : ListingCriteria := ⟨"", "", "", "", "", "", ""⟩

/-- A raw record with no identifier field at all. -/
def noIdRecord : RawRecord := {}

/-- A raw record carrying only a URL. -/
def urlOnlyRecord : RawRecord := { url := .vStr "https://a.example" }

/-- A record with identifier `A1` and an address. -/
def recA1 : RawRecord := { mls := .vStr "A1", address := .vStr "12 Main St, Laval" }

/-- A duplicate of `recA1` under case-insensitive identifier comparison,
carrying a URL and a price the first record lacks. -/
def recA1dup : RawRecord :=
  { mls := .vStr "a1", url := .vStr "https://x.example/1", price := .vNum (.num 400000) }

/-- A tool call naming an unregistered tool. -/
def mysteryToolCall : ToolCall := ⟨"call_m", "mystery_tool", ""⟩

/-- The assistant message requesting the unregistered tool. -/
def mysteryMsg : ChoiceMessage := { content := none, tool_calls := some [mysteryToolCall] }

/-- The choice carrying that message. -/
def mysteryChoice : Choice := { finish_reason := "tool_calls", message := some mysteryMsg }

/-- A response sequence whose first turn requests the unregistered tool and
whose later turns fail with an API error. -/
def mysteryResponses : ℕ → ModelTurn :=
  fun i => if i = 0 then .choice mysteryChoice else .apiError "boom"

/-! ## Helper lemmas: dropWhile, trim, digit strings -/

theorem dropWhile_idem {α : Type} (p : α → Bool) (l : List α) :
    (l.dropWhile p).dropWhile p = l.dropWhile p := by
  induction l with
  | nil => rfl
  | cons a t ih =>
    by_cases h : p a
    · simpa [List.dropWhile_cons, h] using ih
    · simp [List.dropWhile_cons, h]

theorem dropWhile_eq_self_of_none {α : Type} {p : α → Bool} {l : List α}
    (h : ∀ c ∈ l, p c = false) : l.dropWhile p = l := by
  cases l with
  | nil => rfl
  | cons a t => simp [List.dropWhile_cons, h a (by simp)]

theorem jsTrimList_subset (l : List Char) : ∀ c ∈ jsTrimList l, c ∈ l := by
  intro c hc
  unfold jsTrimList at hc
  rw [List.mem_reverse] at hc
  have h1 := (@List.dropWhile_sublist _ ((l.dropWhile isJsWs).reverse) isJsWs).subset hc
  rw [List.mem_reverse] at h1
  exact (@List.dropWhile_sublist _ l isJsWs).subset h1

theorem jsTrimList_noWs {l : List Char} (h : ∀ c ∈ l, isJsWs c = false) :
    jsTrimList l = l := by
  unfold jsTrimList
  rw [dropWhile_eq_self_of_none h,
      dropWhile_eq_self_of_none (fun c hc => h c (List.mem_reverse.1 hc)),
      List.reverse_reverse]

theorem dropWhile_prefix_stable {α : Type} {p : α → Bool} {x y : List α}
    (hx : x.dropWhile p = x) (hpre : y <+: x) : y.dropWhile p = y := by
  cases y with
  | nil => rfl
  | cons c t =>
    rcases hpre with ⟨u, hu⟩
    have hc : p c = false := by
      cases hv : p c
      · rfl
      · exfalso
        rw [← hu, List.cons_append, List.dropWhile_cons, if_pos hv] at hx
        have h1 := (@List.dropWhile_sublist _ (t ++ u) p).length_le
        rw [hx] at h1
        simp [List.length_append] at h1
    simp [List.dropWhile_cons, hc]

theorem jsTrimList_idem (l : List Char) : jsTrimList (jsTrimList l) = jsTrimList l := by
  have hA : (l.dropWhile isJsWs).dropWhile isJsWs = l.dropWhile isJsWs :=
    dropWhile_idem isJsWs l
  have hpre : ((l.dropWhile isJsWs).reverse.dropWhile isJsWs).reverse <+: l.dropWhile isJsWs := by
    simpa using
      (@List.reverse_prefix _ ((l.dropWhile isJsWs).reverse.dropWhile isJsWs)
        ((l.dropWhile isJsWs).reverse)).2 (List.dropWhile_suffix isJsWs)
  show jsTrimList (((l.dropWhile isJsWs).reverse.dropWhile isJsWs).reverse) = _
  unfold jsTrimList
  rw [dropWhile_prefix_stable hA hpre, List.reverse_reverse,
      dropWhile_idem isJsWs]

theorem jsTrim_idem (s : String) : jsTrim (jsTrim s) = jsTrim s := by
  unfold jsTrim
  exact congrArg String.mk (jsTrimList_idem s.data)

theorem jsTrim_noWs {s : String} (h : ∀ c ∈ s.data, isJsWs c = false) : jsTrim s = s := by
  unfold jsTrim
  rw [jsTrimList_noWs h]

theorem not_ws_of_digit {c : Char} (h : c.isDigit = true) : isJsWs c = false := by
  simp only [Char.isDigit] at h
  simp only [isJsWs, Bool.or_eq_false_iff, decide_eq_false_iff_not]
  rw [Bool.and_eq_true, decide_eq_true_iff, decide_eq_true_iff] at h
  obtain ⟨h1, h2⟩ := h
  refine ⟨⟨⟨⟨⟨?_, ?_⟩, ?_⟩, ?_⟩, ?_⟩, ?_⟩ <;> (intro hcc; subst hcc; revert h1 h2; decide)

/-! ## Helper lemmas: digit strings and numeric roundtrips -/

theorem digitChar_isDigit {d : ℕ} (h : d < 10) : (Char.ofNat (48 + d)).isDigit = true := by
  interval_cases d <;> decide

theorem digitChar_val {d : ℕ} (h : d < 10) : (Char.ofNat (48 + d)).toNat - 48 = d := by
  interval_cases d <;> decide

theorem natDigitsAux_eq (fuel : ℕ) : ∀ n : ℕ, n ≤ fuel → natDigitsAux fuel n = Nat.digits 10 n := by
  induction fuel with
  | zero =>
    intro n h
    have hn : n = 0 := by omega
    subst hn
    simp [natDigitsAux]
  | succ fuel ih =>
    intro n h
    cases n with
    | zero => simp [natDigitsAux]
    | succ m =>
      rw [natDigitsAux]
      rw [ih ((m + 1) / 10) (by
        have := Nat.div_lt_self (Nat.succ_pos m) (by norm_num : 1 < 10)
        omega)]
      rw [Nat.digits_def' (by norm_num : 1 < 10) (Nat.succ_pos m)]

theorem natToDigitChars_digits (n : ℕ) : ∀ c ∈ natToDigitChars n, c.isDigit = true := by
  intro c hc
  unfold natToDigitChars at hc
  by_cases h : n = 0
  · rw [if_pos h] at hc
    simp at hc
    subst hc
    decide
  · rw [if_neg h, natDigitsAux_eq n n (le_refl n)] at hc
    rcases List.mem_map.1 hc with ⟨d, hd, rfl⟩
    exact digitChar_isDigit (Nat.digits_lt_base (by norm_num) (List.mem_reverse.1 hd))

theorem foldl_digits_val (l : List ℕ) (h : ∀ d ∈ l, d < 10) (a : ℕ) :
    List.foldl (fun a c => 10 * a + (c.toNat - 48)) a (l.map (fun d => Char.ofNat (48 + d)))
      = List.foldl (fun a d => 10 * a + d) a l := by
  induction l generalizing a with
  | nil => rfl
  | cons d t ih =>
    simp only [List.map_cons, List.foldl_cons]
    rw [digitChar_val (h d (by simp))]
    exact ih (fun x hx => h x (by simp [hx])) _

theorem foldl_horner_reverse (l : List ℕ) :
    List.foldl (fun a d => 10 * a + d) 0 l.reverse = Nat.ofDigits 10 l := by
  rw [List.foldl_reverse]
  induction l with
  | nil => simp [Nat.ofDigits]
  | cons d t ih =>
    rw [List.foldr_cons, ih, Nat.ofDigits_cons]
    ring

theorem digitsToNat_natToDigitChars (n : ℕ) : digitsToNat (natToDigitChars n) = n := by
  unfold digitsToNat natToDigitChars
  by_cases h : n = 0
  · subst h
    decide
  · rw [if_neg h, natDigitsAux_eq n n (le_refl n),
      foldl_digits_val _ (fun d hd => Nat.digits_lt_base (by norm_num) (List.mem_reverse.1 hd)),
      foldl_horner_reverse, Nat.ofDigits_digits]

theorem foldl_digits_scale (B : List Char) (a : ℕ) :
    List.foldl (fun a c => 10 * a + (c.toNat - 48)) a B
      = a * 10 ^ B.length + List.foldl (fun a c => 10 * a + (c.toNat - 48)) 0 B := by
  induction B generalizing a with
  | nil => simp
  | cons c t ih =>
    simp only [List.foldl_cons, List.length_cons]
    rw [ih (10 * a + (c.toNat - 48)), ih (10 * 0 + (c.toNat - 48))]
    ring

theorem digitsToNat_append (A B : List Char) :
    digitsToNat (A ++ B) = digitsToNat A * 10 ^ B.length + digitsToNat B := by
  unfold digitsToNat
  rw [List.foldl_append, foldl_digits_scale]

theorem digitsToNat_replicate_zeros (j : ℕ) (D : List Char) :
    digitsToNat (List.replicate j '0' ++ D) = digitsToNat D := by
  rw [digitsToNat_append]
  have hz : digitsToNat (List.replicate j '0') = 0 := by
    induction j with
    | zero => rfl
    | succ m ih =>
      unfold digitsToNat at ih ⊢
      rw [List.replicate_succ, List.foldl_cons]
      simpa using ih
  rw [hz]
  ring

theorem takeWhile_eq_self_of_all {α : Type} {p : α → Bool} {l : List α}
    (h : ∀ c ∈ l, p c = true) : l.takeWhile p = l := by
  induction l with
  | nil => rfl
  | cons a t ih =>
    rw [List.takeWhile_cons, if_pos (h a (by simp))]
    rw [ih (fun c hc => h c (by simp [hc]))]

theorem dropWhile_eq_nil_of_all {α : Type} {p : α → Bool} {l : List α}
    (h : ∀ c ∈ l, p c = true) : l.dropWhile p = [] := by
  induction l with
  | nil => rfl
  | cons a t ih =>
    rw [List.dropWhile_cons, if_pos (h a (by simp))]
    exact ih (fun c hc => h c (by simp [hc]))

theorem takeWhile_middle {α : Type} {p : α → Bool} {A B : List α} {c : α}
    (hA : ∀ a ∈ A, p a = true) (hc : p c = false) :
    (A ++ c :: B).takeWhile p = A ∧ (A ++ c :: B).dropWhile p = c :: B := by
  induction A with
  | nil => simp [List.takeWhile_cons, List.dropWhile_cons, hc]
  | cons a t ih =>
    have ha : p a = true := hA a (by simp)
    have iht := ih (fun x hx => hA x (by simp [hx]))
    constructor
    · rw [List.cons_append, List.takeWhile_cons, if_pos ha, iht.1]
    · rw [List.cons_append, List.dropWhile_cons, if_pos ha, iht.2]

theorem parseNumber_all_digits {s : String} (h : ∀ c ∈ s.data, c.isDigit = true) :
    parseNumber s = .num (digitsToNat s.data) := by
  unfold parseNumber
  rw [jsTrimList_noWs (fun c hc => not_ws_of_digit (h c hc))]
  rcases hs : s.data with _ | ⟨c, t⟩
  · simp [digitsToNat]
  · have hall : ∀ x ∈ c :: t, Char.isDigit x = true := by rw [← hs]; exact h
    have hcdig : c.isDigit = true := hall c (by simp)
    have hne : (c :: t : List Char) ≠ [] := by simp
    rw [if_neg hne]
    have hcm : c ≠ '-' := by intro hcc; subst hcc; simp at hcdig
    have hcp : c ≠ '+' := by intro hcc; subst hcc; simp at hcdig
    rw [if_neg (by simp [hcm]), if_neg (by simp [hcp])]
    unfold parseDecimal
    rw [takeWhile_eq_self_of_all hall, dropWhile_eq_nil_of_all hall]
    rw [if_pos rfl, if_neg (by simp)]

theorem parseNumber_natToDecString (n : ℕ) : parseNumber (natToDecString n) = .num n := by
  have : parseNumber (natToDecString n) = .num (digitsToNat (natToDecString n).data) :=
    @parseNumber_all_digits (natToDecString n) (natToDigitChars_digits n)
  rw [this]
  unfold natToDecString
  rw [show (String.mk (natToDigitChars n)).data = natToDigitChars n from rfl,
      digitsToNat_natToDigitChars]

theorem num_cast_of_den_one {x : ℚ} (h : x.den = 1) : ((x.num : ℚ)) = x := by
  conv_rhs => rw [← Rat.num_div_den x]
  rw [h]
  push_cast
  ring

theorem dvd_ten_pow_self {d m : ℕ} (h : d ∣ 10 ^ m) : d ∣ 10 ^ d := by
  induction d using Nat.strong_induction_on generalizing m with
  | _ d ih =>
    rcases Nat.eq_zero_or_pos d with hd0 | hdpos
    · subst hd0
      exfalso
      have := Nat.eq_zero_of_zero_dvd h
      exact absurd this (by positivity)
    rcases Nat.lt_or_ge d 2 with hd1 | hd2
    · interval_cases d
      · exact one_dvd _
    · obtain ⟨p, hp, hpd⟩ := Nat.exists_prime_and_dvd (by omega : d ≠ 1)
      obtain ⟨e, he⟩ := hpd
      have hppos : 0 < p := hp.pos
      have hepos : 0 < e := by
        rcases Nat.eq_zero_or_pos e with h0 | h0
        · subst h0; omega
        · exact h0
      have helt : e < d := by
        have := hp.two_le
        calc e = e * 1 := (mul_one e).symm
        _ < p * e := by
          rw [mul_comm]
          exact Nat.mul_lt_mul_of_lt_of_le (by omega) (le_refl e) hepos
        _ = d := he.symm
      have hedvd : e ∣ 10 ^ m := dvd_trans ⟨p, by rw [he]; ring⟩ h
      have ihe : e ∣ 10 ^ e := ih e helt hedvd
      have hpd' : p ∣ d := ⟨e, he⟩
      have hp10 : p ∣ 10 := hp.dvd_of_dvd_pow (hpd'.trans h)
      have : d ∣ 10 ^ (e + 1) := by
        rw [he, pow_succ, mul_comm (10 ^ e) 10]
        exact mul_dvd_mul hp10 ihe
      exact dvd_trans this (pow_dvd_pow 10 (by omega))

theorem den_one_of_den_dvd {q : ℚ} {k : ℕ} (h : q.den ∣ 10 ^ k) :
    (q * 10 ^ k).den = 1 := by
  obtain ⟨t, ht⟩ := h
  have hden0 : ((q.den : ℚ)) ≠ 0 := by
    exact_mod_cast q.den_ne_zero
  have key : q * (10 : ℚ) ^ k = ((q.num * (t : ℤ) : ℤ) : ℚ) := by
    have h10 : ((10 : ℚ)) ^ k = ((q.den : ℚ)) * (t : ℚ) := by
      have := congrArg (fun x : ℕ => (x : ℚ)) ht
      push_cast at this
      exact this
    conv_lhs => rw [← Rat.num_div_den q]
    rw [h10]
    push_cast
    field_simp
    ring
  rw [key, Rat.den_intCast]

theorem den_dvd_of_den_one {q : ℚ} {m : ℕ} (h : (q * 10 ^ m).den = 1) :
    q.den ∣ 10 ^ m := by
  have hz : ((q * 10 ^ m).num : ℚ) = q * 10 ^ m := num_cast_of_den_one h
  have hq : q = Rat.divInt (q * 10 ^ m).num ((10 : ℤ) ^ m) := by
    rw [Rat.divInt_eq_div, hz]
    have h10 : ((10 : ℚ)) ^ m ≠ 0 := by positivity
    push_cast
    field_simp
  have hdvd := Rat.den_dvd (q * 10 ^ m).num ((10 : ℤ) ^ m)
  rw [← hq] at hdvd
  have : ((q.den : ℤ)) ∣ (((10 : ℕ) ^ m : ℕ) : ℤ) := by
    push_cast
    exact hdvd
  exact_mod_cast this

theorem decExpOf_den_one {q : ℚ} (hterm : ∃ m, (q * 10 ^ m).den = 1) :
    (q * 10 ^ decExpOf q).den = 1 := by
  obtain ⟨m, hm⟩ := hterm
  have hwit : (q * 10 ^ q.den).den = 1 :=
    den_one_of_den_dvd (dvd_ten_pow_self (den_dvd_of_den_one hm))
  unfold decExpOf
  rcases hfind : (List.range (q.den + 1)).find? (fun k => decide ((q * 10 ^ k).den = 1)) with _ | k0
  · exfalso
    have := List.find?_eq_none.1 hfind q.den (List.mem_range.2 (by omega))
    simp at this
    exact this hwit
  · rw [hfind, Option.getD_some]
    have := List.find?_some hfind
    simpa using this

theorem parseDecimal_digits_dot (A B : List Char) (hA : ∀ c ∈ A, c.isDigit = true)
    (hAne : A ≠ []) (hB : ∀ c ∈ B, c.isDigit = true) :
    parseDecimal (A ++ '.' :: B) = some (mkDec A B) := by
  have h1 := @takeWhile_middle _ _ _ B _ hA (by decide : ('.').isDigit = false)
  unfold parseDecimal
  rw [h1.1, h1.2]
  simp only [List.head?_cons, List.tail_cons, if_true]
  rw [takeWhile_eq_self_of_all hB, dropWhile_eq_nil_of_all hB]
  simp [hAne]

theorem parseNumber_digits_dot (A B : List Char) (hA : ∀ c ∈ A, c.isDigit = true)
    (hAne : A ≠ []) (hB : ∀ c ∈ B, c.isDigit = true) :
    parseNumber (String.mk (A ++ '.' :: B)) = .num (mkDec A B) := by
  unfold parseNumber
  have hnw : ∀ c ∈ (A ++ '.' :: B), isJsWs c = false := by
    intro c hc
    rcases List.mem_append.1 hc with h | h
    · exact not_ws_of_digit (hA c h)
    · rcases List.mem_cons.1 h with h | h
      · subst h; decide
      · exact not_ws_of_digit (hB c h)
  rw [show (String.mk (A ++ '.' :: B)).data = A ++ '.' :: B from rfl]
  rw [jsTrimList_noWs hnw]
  rcases A with _ | ⟨a, A'⟩
  · exact absurd rfl hAne
  · have hadig : a.isDigit = true := hA a (by simp)
    have hcm : a ≠ '-' := by intro hcc; subst hcc; simp at hadig
    have hcp : a ≠ '+' := by intro hcc; subst hcc; simp at hadig
    rw [List.cons_append]
    rw [if_neg (by simp)]
    rw [if_neg (by simp [hcm]), if_neg (by simp [hcp])]
    rw [← List.cons_append]
    rw [parseDecimal_digits_dot _ _ hA hAne hB]

theorem decExpOf_of_den_one {q : ℚ} (h : q.den = 1) : decExpOf q = 0 := by
  unfold decExpOf
  rw [h]
  have hp : decide ((q * 10 ^ (0 : ℕ)).den = 1) = true := by
    simp [h]
  rw [show List.range (1 + 1) = [0, 1] from rfl]
  simp only [List.find?]
  rw [hp]
  rfl

theorem ratToDecChars_natCast (n : ℕ) : ratToDecChars ((n : ℚ)) = natToDigitChars n := by
  unfold ratToDecChars
  rw [decExpOf_of_den_one (Rat.den_natCast n)]
  simp

theorem parseNumber_ratToDecChars {q : ℚ} (hq : 0 ≤ q)
    (hterm : ∃ m, (q * 10 ^ m).den = 1) :
    parseNumber (String.mk (ratToDecChars q)) = .num q := by
  have hden : (q * 10 ^ decExpOf q).den = 1 := decExpOf_den_one hterm
  have hnum0 : 0 ≤ (q * 10 ^ decExpOf q).num :=
    Rat.num_nonneg.2 (mul_nonneg hq (by positivity))
  have hcast : (((q * 10 ^ decExpOf q).num.toNat : ℕ) : ℚ) = q * 10 ^ decExpOf q := by
    rw [show (((q * 10 ^ decExpOf q).num.toNat : ℕ) : ℚ)
        = (((q * 10 ^ decExpOf q).num.toNat : ℤ) : ℚ) by push_cast; ring]
    rw [Int.toNat_of_nonneg hnum0]
    exact num_cast_of_den_one hden
  by_cases hk0 : decExpOf q = 0
  · have hqn : (((q * 10 ^ decExpOf q).num.toNat : ℕ) : ℚ) = q := by
      rw [hcast, hk0]
      simp
    have hchars : ratToDecChars q = natToDigitChars (q * 10 ^ decExpOf q).num.toNat := by
      unfold ratToDecChars
      rw [if_pos hk0]
    rw [hchars,
      show String.mk (natToDigitChars (q * 10 ^ decExpOf q).num.toNat)
        = natToDecString (q * 10 ^ decExpOf q).num.toNat from rfl,
      parseNumber_natToDecString]
    exact congrArg JNum.num hqn
  · -- k ≥ 1: the printed form is intPart ++ '.' :: fracPart
    set k := decExpOf q with hk
    set n : ℕ := (q * 10 ^ k).num.toNat with hn
    set ds := natToDigitChars n with hds
    set padded := List.replicate (k + 1 - ds.length) '0' ++ ds with hpadded
    have hpaddig : ∀ c ∈ padded, c.isDigit = true := by
      intro c hc
      rcases List.mem_append.1 hc with h | h
      · rw [List.eq_of_mem_replicate h]; decide
      · exact natToDigitChars_digits n c h
    have hpadlen : k + 1 ≤ padded.length := by
      rw [hpadded]
      rw [List.length_append, List.length_replicate]
      omega
    set A := padded.take (padded.length - k) with hA
    set B := padded.drop (padded.length - k) with hB
    have hAdig : ∀ c ∈ A, c.isDigit = true := fun c hc => hpaddig c (List.take_subset _ _ hc)
    have hBdig : ∀ c ∈ B, c.isDigit = true := fun c hc => hpaddig c (List.drop_subset _ _ hc)
    have hAlen : A.length = padded.length - k := by
      rw [hA, List.length_take]
      omega
    have hAne : A ≠ [] := by
      intro hne
      have := congrArg List.length hne
      rw [hAlen] at this
      simp at this
      omega
    have hBlen : B.length = k := by
      rw [hB, List.length_drop]
      omega
    have hsplit : A ++ B = padded := List.take_append_drop _ _
    have hval : digitsToNat A * 10 ^ k + digitsToNat B = n := by
      have h1 : digitsToNat (A ++ B) = digitsToNat A * 10 ^ B.length + digitsToNat B :=
        digitsToNat_append A B
      rw [hsplit, hBlen] at h1
      rw [← h1, hpadded, digitsToNat_replicate_zeros, hds, digitsToNat_natToDigitChars]
    have hchars : ratToDecChars q = A ++ '.' :: B := by
      unfold ratToDecChars
      rw [if_neg hk0]
    rw [hchars, parseNumber_digits_dot A B hAdig hAne hBdig]
    have h10 : ((10 : ℚ)) ^ k ≠ 0 := by positivity
    have hvq : (digitsToNat A : ℚ) * 10 ^ k + digitsToNat B = q * 10 ^ k := by
      have h2 : (digitsToNat A : ℚ) * 10 ^ k + digitsToNat B = (n : ℚ) := by
        exact_mod_cast congrArg (fun x : ℕ => (x : ℚ)) hval
      rw [h2, hcast]
    unfold mkDec
    rw [hBlen]
    have : (digitsToNat A : ℚ) + (digitsToNat B : ℚ) / 10 ^ k = q := by
      field_simp
      linarith [hvq]
    rw [this]

theorem ratToDecChars_digit_dot (q : ℚ) :
    ∀ c ∈ ratToDecChars q, c.isDigit = true ∨ c = '.' := by
  unfold ratToDecChars
  by_cases hk : decExpOf q = 0
  · rw [if_pos hk]
    exact fun c hc => Or.inl (natToDigitChars_digits _ c hc)
  · rw [if_neg hk]
    intro c hc
    have hpaddig : ∀ x ∈ List.replicate (decExpOf q + 1
        - (natToDigitChars (q * 10 ^ decExpOf q).num.toNat).length) '0'
        ++ natToDigitChars (q * 10 ^ decExpOf q).num.toNat, x.isDigit = true := by
      intro x hx
      rcases List.mem_append.1 hx with h | h
      · rw [List.eq_of_mem_replicate h]; decide
      · exact natToDigitChars_digits _ x h
    rcases List.mem_append.1 hc with h | h
    · exact Or.inl (hpaddig c (List.take_subset _ _ h))
    · rcases List.mem_cons.1 h with h | h
      · exact Or.inr h
      · exact Or.inl (hpaddig c (List.drop_subset _ _ h))

theorem filter_eq_self_of_all {α : Type} {p : α → Bool} {l : List α}
    (h : ∀ c ∈ l, p c = true) : l.filter p = l := by
  induction l with
  | nil => rfl
  | cons a t ih =>
    rw [List.filter_cons, if_pos (h a (by simp))]
    rw [ih (fun c hc => h c (by simp [hc]))]

/-- Round trip for `beds`: a natural-valued JS number below the
exponential-notation threshold reprints to its digit string, digit
filtering keeps it, and `Number` reparses it. -/
theorem beds_roundtrip (n : ℕ) (hlt : n < 10 ^ 21) :
    parseNumber (filterDigits (jnumToString (.num ((n : ℚ))))) = .num ((n : ℚ)) := by
  have hcond : ¬(((n : ℚ)) ≠ 0 ∧
      (10 ^ 21 * ((n : ℚ)).den ≤ ((n : ℚ)).num.natAbs ∨
        10 ^ 6 * ((n : ℚ)).num.natAbs < ((n : ℚ)).den)) := by
    simp only [Rat.num_natCast, Rat.den_natCast, Int.natAbs_ofNat, mul_one]
    rintro ⟨hne, hbig | hsmall⟩
    · exact absurd hbig (not_le.2 hlt)
    · have h0 : 10 ^ 6 * n = 0 := Nat.lt_one_iff.1 hsmall
      rcases Nat.mul_eq_zero.1 h0 with h | h
      · exact absurd h (by norm_num)
      · exact hne (by simp [h])
  have hpr : jnumToString (.num ((n : ℚ))) = natToDecString n := by
    simp only [jnumToString]
    rw [if_neg hcond, if_neg (not_lt.2 (by positivity)), ratToDecChars_natCast]
    rfl
  rw [hpr]
  have hfd : filterDigits (natToDecString n) = natToDecString n := by
    unfold filterDigits
    rw [show (natToDecString n).data = natToDigitChars n from rfl,
      filter_eq_self_of_all (natToDigitChars_digits n)]
    rfl
  rw [hfd, parseNumber_natToDecString]

/-- Round trip for `baths`: a nonnegative terminating-decimal JS number
inside the plain-notation range reprints, digit-dot filtering keeps it,
and `Number` reparses it. -/
theorem baths_roundtrip {q : ℚ} (hq : 0 ≤ q) (hterm : ∃ m, (q * 10 ^ m).den = 1)
    (hbig : q.num.natAbs < 10 ^ 21 * q.den)
    (hsmall : q.num = 0 ∨ q.den ≤ 10 ^ 6 * q.num.natAbs) :
    parseNumber (filterDigitsDot (jnumToString (.num q))) = .num q := by
  have hcond : ¬(q ≠ 0 ∧
      (10 ^ 21 * q.den ≤ q.num.natAbs ∨ 10 ^ 6 * q.num.natAbs < q.den)) := by
    rintro ⟨hne, hb | hs⟩
    · exact absurd hb (not_le.2 hbig)
    · rcases hsmall with h0 | hge
      · exact hne (by rwa [Rat.num_eq_zero] at h0)
      · exact absurd hs (not_lt.2 hge)
  have hpr : jnumToString (.num q) = String.mk (ratToDecChars q) := by
    simp only [jnumToString]
    rw [if_neg hcond, if_neg (by push_neg; exact hq)]
  rw [hpr]
  have hfd : filterDigitsDot (String.mk (ratToDecChars q)) = String.mk (ratToDecChars q) := by
    unfold filterDigitsDot
    rw [show (String.mk (ratToDecChars q)).data = ratToDecChars q from rfl]
    rw [filter_eq_self_of_all (fun c hc => ?_)]
    rcases ratToDecChars_digit_dot q c hc with h | h
    · simp [h]
    · simp [h]
  rw [hfd]
  exact parseNumber_ratToDecChars hq hterm

/-- `Number` of an all-digits filter result is always a natural number. -/
theorem parseNumber_filterDigits (s : String) :
    ∃ n : ℕ, parseNumber (filterDigits s) = .num ((n : ℚ)) := by
  refine ⟨digitsToNat (filterDigits s).data, ?_⟩
  exact parseNumber_all_digits (fun c hc => (List.mem_filter.1 hc).2)

theorem dropWhile_head_not {α : Type} {p : α → Bool} {l r : List α} {c : α}
    (h : l.dropWhile p = c :: r) : p c = false := by
  induction l with
  | nil => simp at h
  | cons a t ih =>
    rw [List.dropWhile_cons] at h
    by_cases ha : p a
    · rw [if_pos ha] at h
      exact ih h
    · rw [if_neg ha] at h
      cases h
      cases hv : p c
      · rfl
      · exact absurd hv ha

theorem parseDecimal_digit_dot {l : List Char} (h : ∀ c ∈ l, c.isDigit = true ∨ c = '.') :
    parseDecimal l = none ∨
      ∃ q, parseDecimal l = some q ∧ 0 ≤ q ∧ ∃ k, (q * 10 ^ k).den = 1 := by
  unfold parseDecimal
  rcases hr : l.dropWhile Char.isDigit with _ | ⟨c, r2⟩
  all_goals simp only [List.head?_cons, List.tail_cons, if_true]
  · by_cases hip : l.takeWhile Char.isDigit = []
    · rw [if_pos hip]
      exact Or.inl rfl
    · rw [if_neg hip]
      refine Or.inr ⟨_, rfl, by positivity, 0, ?_⟩
      simp
  · have hcmem : c ∈ l :=
      (List.dropWhile_sublist Char.isDigit).subset (by rw [hr]; simp)
    have hcnd : c.isDigit = false := dropWhile_head_not hr
    have hcd : c = '.' := by
      rcases h c hcmem with hd | hd
      · rw [hd] at hcnd; cases hcnd
      · exact hd
    subst hcd
    rw [if_neg (by simp), if_pos rfl]
    by_cases hef : l.takeWhile Char.isDigit = [] ∧ r2.takeWhile Char.isDigit = []
    · rw [if_pos hef]
      exact Or.inl rfl
    · rw [if_neg hef]
      rcases hr3 : r2.dropWhile Char.isDigit with _ | ⟨c2, r4⟩
      all_goals simp only [List.head?_cons, List.tail_cons, if_true]
      · refine Or.inr ⟨_, rfl, by unfold mkDec; positivity, (r2.takeWhile Char.isDigit).length, ?_⟩
        have hmk : mkDec (l.takeWhile Char.isDigit) (r2.takeWhile Char.isDigit)
            * 10 ^ (r2.takeWhile Char.isDigit).length
            = ((digitsToNat (l.takeWhile Char.isDigit) * 10 ^ (r2.takeWhile Char.isDigit).length
                + digitsToNat (r2.takeWhile Char.isDigit) : ℕ) : ℚ) := by
          unfold mkDec
          have h10 : ((10 : ℚ)) ^ (r2.takeWhile Char.isDigit).length ≠ 0 := by positivity
          push_cast
          field_simp
        rw [hmk, Rat.den_natCast]
      · have hc2mem : c2 ∈ l := by
          have h1 : c2 ∈ r2.dropWhile Char.isDigit := by rw [hr3]; simp
          have h2 : c2 ∈ r2 := (List.dropWhile_sublist Char.isDigit).subset h1
          have h3 : c2 ∈ l.dropWhile Char.isDigit := by
            rw [hr]
            exact List.mem_cons_of_mem _ h2
          exact (List.dropWhile_sublist Char.isDigit).subset h3
        have hc2nd : c2.isDigit = false := dropWhile_head_not hr3
        have hc2d : c2 = '.' := by
          rcases h c2 hc2mem with hd | hd
          · rw [hd] at hc2nd; cases hc2nd
          · exact hd
        subst hc2d
        rw [if_neg (by simp), if_neg (by decide)]
        exact Or.inl rfl

theorem parseNumber_digit_dot {s : String} (h : ∀ c ∈ s.data, c.isDigit = true ∨ c = '.') :
    parseNumber s = .nan ∨
      ∃ q, parseNumber s = .num q ∧ 0 ≤ q ∧ ∃ k, (q * 10 ^ k).den = 1 := by
  unfold parseNumber
  have hnw : ∀ c ∈ s.data, isJsWs c = false := by
    intro c hc
    rcases h c hc with hd | hd
    · exact not_ws_of_digit hd
    · subst hd; decide
  rw [jsTrimList_noWs hnw]
  rcases hs : s.data with _ | ⟨c, t⟩
  · rw [if_pos rfl]
    exact Or.inr ⟨0, rfl, le_refl 0, 0, by simp⟩
  · have hcdd : c.isDigit = true ∨ c = '.' := by
      apply h
      rw [hs]
      simp
    have hcm : c ≠ '-' := by
      rcases hcdd with hd | hd
      · intro hcc; subst hcc; simp at hd
      · subst hd; decide
    have hcp : c ≠ '+' := by
      rcases hcdd with hd | hd
      · intro hcc; subst hcc; simp at hd
      · subst hd; decide
    rw [if_neg (by simp), if_neg (by simp [hcm]), if_neg (by simp [hcp])]
    have hall : ∀ x ∈ c :: t, x.isDigit = true ∨ x = '.' := by
      rw [← hs]; exact h
    rcases parseDecimal_digit_dot hall with hd | ⟨q, hq, hq0, hterm⟩
    · rw [hd]
      exact Or.inl rfl
    · rw [hq]
      exact Or.inr ⟨q, rfl, hq0, hterm⟩

/-! ## Normalizer loop lemmas -/

theorem normGo_length_le (items : List RawItem) :
    ∀ seen out, out.length < MAX_LISTINGS → (normGo items seen out).length ≤ MAX_LISTINGS := by
  induction items with
  | nil => intro seen out h; exact le_of_lt h
  | cons item rest ih =>
    intro seen out h
    cases item with
    | junk => exact ih seen out h
    | obj r =>
      simp only [normGo]
      rcases hlook : List.lookup (recordKey r out.length) seen with _ | idx
      · simp only [hlook]
        by_cases hb : (out ++ [normalizeRecord r]).length ≥ MAX_LISTINGS
        · rw [if_pos hb]
          simp only [List.length_append, List.length_cons, List.length_nil]
          omega
        · rw [if_neg hb]
          apply ih
          omega
      · simp only [hlook]
        rcases hget : out[idx]? with _ | prior
        · simp only [hget]
          rw [if_neg (by omega)]
          exact ih _ _ h
        · simp only [hget]
          by_cases hb : (out.set idx (mergeListing prior (normalizeRecord r))).length ≥ MAX_LISTINGS
          · rw [if_pos hb]
            rw [List.length_set] at hb ⊢
            omega
          · rw [if_neg hb]
            apply ih
            rw [List.length_set]
            exact h

theorem ite_congr_else {c : Prop} [Decidable c] {α : Type} {t e1 e2 : α}
    (h : ¬c → e1 = e2) : (if c then t else e1) = (if c then t else e2) := by
  by_cases hc : c
  · rw [if_pos hc, if_pos hc]
  · rw [if_neg hc, if_neg hc]
    exact h hc

theorem normGo_append_of_full (xs : List RawItem) :
    ∀ ys seen out, out.length < MAX_LISTINGS → (normGo xs seen out).length = MAX_LISTINGS →
      normGo (xs ++ ys) seen out = normGo xs seen out := by
  induction xs with
  | nil =>
    intro ys seen out hlt hfull
    simp only [normGo] at hfull
    omega
  | cons item rest ih =>
    intro ys seen out hlt hfull
    cases item with
    | junk =>
      simp only [List.cons_append, normGo] at hfull ⊢
      exact ih ys seen out hlt hfull
    | obj r =>
      simp only [List.cons_append, normGo] at hfull ⊢
      rcases hlook : List.lookup (recordKey r out.length) seen with _ | idx
      · simp only [hlook] at hfull ⊢
        refine ite_congr_else (fun hb => ?_)
        rw [if_neg hb] at hfull
        refine ih ys _ _ ?_ hfull
        simp only [List.length_append, List.length_cons, List.length_nil] at hb ⊢
        omega
      · simp only [hlook] at hfull ⊢
        rcases hget : out[idx]? with _ | prior
        · simp only [hget] at hfull ⊢
          refine ite_congr_else (fun hb => ?_)
          rw [if_neg hb] at hfull
          exact ih ys _ _ hlt hfull
        · simp only [hget] at hfull ⊢
          refine ite_congr_else (fun hb => ?_)
          rw [if_neg hb] at hfull
          refine ih ys _ _ ?_ hfull
          rw [List.length_set]
          exact hlt

/-! ## Normalizer output invariants -/

theorem trimIfTruthy_trim {v : JSVal} {s : String} (h : trimIfTruthy v = some s) :
    jsTrim s = s := by
  unfold trimIfTruthy at h
  by_cases ht : v.truthy
  · rw [if_pos ht] at h
    cases h
    exact jsTrim_idem _
  · rw [if_neg ht] at h
    cases h

theorem resolveMls_trim {r : RawRecord} {s : String} (h : resolveMls r = some s) :
    jsTrim s = s := by
  unfold resolveMls at h
  by_cases ht : (firstVal [r.mls, r.MLS, r.listingId, r.listing_id, r.MLSreg]).truthy
  · rw [if_pos ht] at h
    cases h
    exact jsTrim_idem _
  · rw [if_neg ht] at h
    cases h

theorem jsOr_eq_some {α : Type} {a b : Option α} {x : α} (h : jsOr a b = some x) :
    a = some x ∨ b = some x := by
  cases a with
  | some v => exact Or.inl (by simpa [jsOr] using h)
  | none => exact Or.inr (by simpa [jsOr] using h)

theorem mlsSentinel_trim : jsTrim mlsSentinel = mlsSentinel := by decide

theorem good_normalizeRecord (r : RawRecord) : GoodListing (normalizeRecord r) := by
  constructor
  · -- mls
    have hdef : (normalizeRecord r).mls = (jsOr (resolveMls r) (some mlsSentinel)).getD "" := rfl
    rw [hdef]
    rcases hm : resolveMls r with _ | m
    · simpa [jsOr] using mlsSentinel_trim
    · simpa [jsOr] using resolveMls_trim hm
  · exact fun s hs => trimIfTruthy_trim hs
  · exact fun s hs => trimIfTruthy_trim hs
  · exact fun s hs => trimIfTruthy_trim hs
  · exact fun s hs => trimIfTruthy_trim hs
  · exact fun s hs => trimIfTruthy_trim hs
  · -- beds
    intro j hj
    show ∃ n : ℕ, j = .num ((n : ℚ))
    by_cases hn : r.beds.isNullish
    · simp only [normalizeRecord, if_pos hn] at hj
      cases hj
    · simp only [normalizeRecord, if_neg hn] at hj
      obtain ⟨n, hn2⟩ := parseNumber_filterDigits (jsToString r.beds)
      rw [Option.some_inj] at hj
      exact ⟨n, by rw [← hj, hn2]⟩
  · -- baths
    intro q hq
    by_cases hn : r.baths.isNullish
    · simp only [normalizeRecord, if_pos hn] at hq
      cases hq
    · simp only [normalizeRecord, if_neg hn] at hq
      rw [Option.some_inj] at hq
      have hchars : ∀ c ∈ (filterDigitsDot (jsToString r.baths)).data,
          c.isDigit = true ∨ c = '.' := by
        intro c hc
        have := (List.mem_filter.1 hc).2
        rcases hor : c.isDigit with _ | _
        · rw [hor] at this
          simp at this
          exact Or.inr this
        · exact Or.inl rfl
      rcases parseNumber_digit_dot hchars with hd | ⟨q2, hq2, h0, hterm⟩
      · rw [hd] at hq
        cases hq
      · rw [hq2] at hq
        cases hq
        exact ⟨h0, hterm⟩

theorem good_merge {p i : NormalizedListing} (hp : GoodListing p) (hi : GoodListing i) :
    GoodListing (mergeListing p i) := by
  constructor
  · exact hp.mlsTrim
  · exact hp.urlTrim
  · intro s hs
    rcases jsOr_eq_some hs with h | h
    · exact hp.addressTrim s h
    · exact hi.addressTrim s h
  · intro s hs
    rcases jsOr_eq_some hs with h | h
    · exact hp.typeTrim s h
    · exact hi.typeTrim s h
  · intro s hs
    rcases jsOr_eq_some hs with h | h
    · exact hp.noteFrTrim s h
    · exact hi.noteFrTrim s h
  · intro s hs
    rcases jsOr_eq_some hs with h | h
    · exact hp.noteEnTrim s h
    · exact hi.noteEnTrim s h
  · intro j hj
    rcases jsOr_eq_some hj with h | h
    · exact hp.bedsNat j h
    · exact hi.bedsNat j h
  · intro q hq
    rcases jsOr_eq_some hq with h | h
    · exact hp.bathsDec q h
    · exact hi.bathsDec q h

theorem good_normGo (items : List RawItem) :
    ∀ seen out, (∀ x ∈ out, GoodListing x) → ∀ x ∈ normGo items seen out, GoodListing x := by
  induction items with
  | nil => intro seen out h; simpa [normGo] using h
  | cons item rest ih =>
    intro seen out h
    cases item with
    | junk => exact ih seen out h
    | obj r =>
      simp only [normGo]
      rcases hlook : List.lookup (recordKey r out.length) seen with _ | idx
      · simp only [hlook]
        have hout' : ∀ x ∈ out ++ [normalizeRecord r], GoodListing x := by
          intro x hx
          rcases List.mem_append.1 hx with hx | hx
          · exact h x hx
          · rw [List.mem_singleton.1 hx]
            exact good_normalizeRecord r
        by_cases hb : (out ++ [normalizeRecord r]).length ≥ MAX_LISTINGS
        · rw [if_pos hb]
          exact hout'
        · rw [if_neg hb]
          exact ih _ _ hout'
      · simp only [hlook]
        rcases hget : out[idx]? with _ | prior
        · simp only [hget]
          by_cases hb : out.length ≥ MAX_LISTINGS
          · rw [if_pos hb]
            exact h
          · rw [if_neg hb]
            exact ih _ _ h
        · simp only [hget]
          have hprior : prior ∈ out := by
            obtain ⟨hlt, hp⟩ := List.getElem?_eq_some.1 hget
            rw [← hp]
            exact List.getElem_mem hlt
          have hout' : ∀ x ∈ out.set idx (mergeListing prior (normalizeRecord r)),
              GoodListing x := by
            intro x hx
            rcases List.mem_or_eq_of_mem_set hx with hx | hx
            · exact h x hx
            · rw [hx]
              exact good_merge (h prior hprior) (good_normalizeRecord r)
          by_cases hb : (out.set idx (mergeListing prior (normalizeRecord r))).length ≥ MAX_LISTINGS
          · rw [if_pos hb]
            exact hout'
          · rw [if_neg hb]
            exact ih _ _ hout'

theorem good_normalize (items : List RawItem) :
    ∀ x ∈ normalizeAndDedupeListings items, GoodListing x := by
  intro x hx
  exact good_normGo items [] [] (by simp) x (List.take_subset _ _ hx)

/-! ## Re-normalization of an already-normalized record -/

theorem normalizedListing_ext {a b : NormalizedListing}
    (h1 : a.mls = b.mls) (h2 : a.url = b.url) (h3 : a.address = b.address)
    (h4 : a.price = b.price) (h5 : a.beds = b.beds) (h6 : a.baths = b.baths)
    (h7 : a.type = b.type) (h8 : a.note_fr = b.note_fr) (h9 : a.note_en = b.note_en) :
    a = b := by
  cases a
  cases b
  simp only at h1 h2 h3 h4 h5 h6 h7 h8 h9
  subst h1 h2 h3 h4 h5 h6 h7 h8 h9
  rfl

theorem resolveMls_toRaw {nl : NormalizedListing} (hg : GoodListing nl) (hm : nl.mls ≠ "") :
    resolveMls (toRaw nl) = some nl.mls := by
  unfold resolveMls firstVal toRaw
  simp only [List.find?]
  rw [show (JSVal.vStr nl.mls).isNullish = false from rfl]
  simp only [Bool.not_false]
  rw [show Option.getD (some (JSVal.vStr nl.mls)) JSVal.vNull = JSVal.vStr nl.mls from rfl]
  rw [show (JSVal.vStr nl.mls).truthy = decide (nl.mls ≠ "") from rfl]
  rw [if_pos (by simpa using hm)]
  rw [show jsToString (JSVal.vStr nl.mls) = nl.mls from rfl, hg.mlsTrim]

theorem trimIfTruthy_toRawStr {o : Option String} (hstable : ∀ s, o = some s → jsTrim s = s)
    (hne : o ≠ some "") :
    trimIfTruthy (optStrToJS o) = o := by
  cases o with
  | none => rfl
  | some u =>
    have hu : u ≠ "" := fun hc => hne (by rw [hc])
    unfold trimIfTruthy
    rw [show optStrToJS (some u) = JSVal.vStr u from rfl]
    rw [show (JSVal.vStr u).truthy = decide (u ≠ "") from rfl]
    rw [if_pos (by simpa using hu)]
    rw [show jsToString (JSVal.vStr u) = u from rfl, hstable u rfl]

theorem renorm_record {nl : NormalizedListing} (hg : GoodListing nl) (hm : nl.mls ≠ "")
    (hu : nl.url ≠ some "") (ha : nl.address ≠ some "") (hty : nl.type ≠ some "")
    (hf : nl.note_fr ≠ some "") (he : nl.note_en ≠ some "") (hb : nl.baths ≠ some .nan)
    (hbedsR : nl.beds.all JNum.inPlainRange = true)
    (hbathsR : nl.baths.all JNum.inPlainRange = true) :
    normalizeRecord (toRaw nl) = nl := by
  apply normalizedListing_ext
  · -- mls
    have hdef : (normalizeRecord (toRaw nl)).mls
        = (jsOr (resolveMls (toRaw nl)) (some mlsSentinel)).getD "" := rfl
    rw [hdef, resolveMls_toRaw hg hm]
    rfl
  · -- url
    have hdef : (normalizeRecord (toRaw nl)).url = trimIfTruthy (toRaw nl).url := rfl
    rw [hdef]
    exact trimIfTruthy_toRawStr hg.urlTrim hu
  · -- address
    have hdef : (normalizeRecord (toRaw nl)).address = trimIfTruthy (toRaw nl).address := rfl
    rw [hdef]
    exact trimIfTruthy_toRawStr hg.addressTrim ha
  · -- price
    have hdef : (normalizeRecord (toRaw nl)).price =
        (if !(toRaw nl).price.isNullish then some (jsToNumber (toRaw nl).price)
         else numberFromPriceLike (firstStr (toRaw nl).priceText (toRaw nl).price_str
           (toRaw nl).askingPrice)) := rfl
    rw [hdef]
    rw [show (toRaw nl).price = optNumToJS nl.price from rfl]
    cases hp : nl.price with
    | none => rfl
    | some j => rfl
  · -- beds
    have hdef : (normalizeRecord (toRaw nl)).beds =
        (if (toRaw nl).beds.isNullish then none
         else some (parseNumber (filterDigits (jsToString (toRaw nl).beds)))) := rfl
    rw [hdef]
    rw [show (toRaw nl).beds = optNumToJS nl.beds from rfl]
    cases hp : nl.beds with
    | none => rfl
    | some j =>
      obtain ⟨n, hn⟩ := hg.bedsNat j hp
      have hrange : JNum.inPlainRange j = true := by
        rw [hp] at hbedsR
        simpa [Option.all] using hbedsR
      have hlt : n < 10 ^ 21 := by
        rw [hn] at hrange
        simp only [JNum.inPlainRange, Bool.and_eq_true, Bool.or_eq_true,
          decide_eq_true_eq, Rat.num_natCast, Rat.den_natCast,
          Int.natAbs_ofNat, mul_one] at hrange
        exact hrange.1
      rw [show optNumToJS (some j) = JSVal.vNum j from rfl]
      rw [show (JSVal.vNum j).isNullish = false from rfl]
      rw [if_neg (by simp)]
      rw [show jsToString (JSVal.vNum j) = jnumToString j from rfl, hn,
        beds_roundtrip n hlt]
  · -- baths
    have hdef : (normalizeRecord (toRaw nl)).baths =
        (if (toRaw nl).baths.isNullish then none
         else some (parseNumber (filterDigitsDot (jsToString (toRaw nl).baths)))) := rfl
    rw [hdef]
    rw [show (toRaw nl).baths = optNumToJS nl.baths from rfl]
    cases hp : nl.baths with
    | none => rfl
    | some j =>
      cases j with
      | nan => exact absurd hp hb
      | num q =>
        obtain ⟨h0, hterm⟩ := hg.bathsDec q hp
        have hrange : JNum.inPlainRange (.num q) = true := by
          rw [hp] at hbathsR
          simpa [Option.all] using hbathsR
        simp only [JNum.inPlainRange, Bool.and_eq_true, Bool.or_eq_true,
          decide_eq_true_eq] at hrange
        rw [show optNumToJS (some (JNum.num q)) = JSVal.vNum (.num q) from rfl]
        rw [show (JSVal.vNum (.num q)).isNullish = false from rfl]
        rw [if_neg (by simp)]
        rw [show jsToString (JSVal.vNum (.num q)) = jnumToString (.num q) from rfl,
          baths_roundtrip h0 hterm hrange.1 hrange.2]
  · -- type
    have hdef : (normalizeRecord (toRaw nl)).type = trimIfTruthy (toRaw nl).type := rfl
    rw [hdef]
    exact trimIfTruthy_toRawStr hg.typeTrim hty
  · -- note_fr
    have hdef : (normalizeRecord (toRaw nl)).note_fr = trimIfTruthy (toRaw nl).note_fr := rfl
    rw [hdef]
    exact trimIfTruthy_toRawStr hg.noteFrTrim hf
  · -- note_en
    have hdef : (normalizeRecord (toRaw nl)).note_en = trimIfTruthy (toRaw nl).note_en := rfl
    rw [hdef]
    exact trimIfTruthy_toRawStr hg.noteEnTrim he

/-! ## Distinct-key runs of the normalizer loop -/

theorem str_append_left_cancel {p a b : String} (h : p ++ a = p ++ b) : a = b := by
  apply String.ext
  have hd := congrArg String.data h
  rw [String.data_append, String.data_append] at hd
  exact List.append_cancel_left hd

theorem recordKey_mls {r : RawRecord} (ht : strTruthy (resolveMls r) = true) (n : ℕ) :
    recordKey r n = "MLS:" ++ jsToUpper ((resolveMls r).getD "") := by
  rcases hm : resolveMls r with _ | m
  · rw [hm] at ht
    simp [strTruthy] at ht
  · rw [hm] at ht
    have hne : m ≠ "" := by simpa [strTruthy] using ht
    unfold recordKey
    rw [hm]
    simp only [Option.getD_some]
    rw [if_pos hne]

theorem normGo_distinct (rs : List RawRecord) :
    ∀ seen out,
      (∀ r ∈ rs, strTruthy (resolveMls r) = true) →
      (∀ r ∈ rs, seen.lookup ("MLS:" ++ jsToUpper ((resolveMls r).getD "")) = none) →
      (rs.map (fun r => "MLS:" ++ jsToUpper ((resolveMls r).getD ""))).Pairwise (· ≠ ·) →
      out.length + rs.length ≤ MAX_LISTINGS →
      normGo (rs.map .obj) seen out = out ++ rs.map normalizeRecord := by
  induction rs with
  | nil =>
    intro seen out _ _ _ _
    simp [normGo]
  | cons r rest ih =>
    intro seen out htruthy hfresh hpair hlen
    rw [List.map_cons, List.pairwise_cons] at hpair
    obtain ⟨hpairhead, hpairtail⟩ := hpair
    rw [List.length_cons] at hlen
    simp only [List.map_cons, normGo]
    rw [recordKey_mls (htruthy r (by simp)) out.length]
    rw [hfresh r (by simp)]
    simp only [List.length_append, List.length_cons, List.length_nil]
    by_cases hb : out.length + 1 ≥ MAX_LISTINGS
    · rw [if_pos (by omega)]
      have hrest : rest = [] := by
        have : rest.length = 0 := by omega
        exact List.length_eq_zero.1 this
      subst hrest
      simp
    · rw [if_neg (by omega)]
      have htruthy' : ∀ r' ∈ rest, strTruthy (resolveMls r') = true :=
        fun r' hr' => htruthy r' (by simp [hr'])
      have hfresh' : ∀ r' ∈ rest,
          ((("MLS:" ++ jsToUpper ((resolveMls r).getD ""), out.length) :: seen).lookup
            ("MLS:" ++ jsToUpper ((resolveMls r').getD "")) = none) := by
        intro r' hr'
        have hne := hpairhead _ (List.mem_map_of_mem _ hr')
        rw [List.lookup]
        rw [show (("MLS:" ++ jsToUpper ((resolveMls r').getD ""))
            == ("MLS:" ++ jsToUpper ((resolveMls r).getD ""))) = false by
          simpa using fun hc => hne hc.symm]
        exact hfresh r' (by simp [hr'])
      have hlen' : (out ++ [normalizeRecord r]).length + rest.length ≤ MAX_LISTINGS := by
        simp only [List.length_append, List.length_cons, List.length_nil]
        omega
      rw [ih _ _ htruthy' hfresh' hpairtail hlen', List.append_assoc]
      rfl

/-! ## Agent loop lemmas -/

theorem agentGo_calls_le (exec : String → Json → Json) (responses : ℕ → ModelTurn) :
    ∀ (b : ℕ) (msgs : List ChatMsg) (warns : List String) (calls : ℕ),
      (agentGo exec responses b msgs warns calls).calls ≤ calls + b := by
  intro b
  induction b with
  | zero =>
    intro msgs warns calls
    simp [agentGo]
  | succ b ih =>
    intro msgs warns calls
    simp only [agentGo]
    rcases responses calls with e | _ | c
    · show calls + 1 ≤ calls + (b + 1)
      omega
    · show calls + 1 ≤ calls + (b + 1)
      omega
    · simp only
      by_cases htc : (c.message.getD { content := some "", tool_calls := none }).tool_calls.getD []
          ≠ []
      · rw [if_pos htc]
        calc (agentGo exec responses b _ warns (calls + 1)).calls
            ≤ (calls + 1) + b := ih _ _ _
          _ = calls + (b + 1) := by omega
      · rw [if_neg htc]
        by_cases h1 : c.finish_reason = "stop" ∨ c.finish_reason = "length"
        · rw [if_pos h1]
          show calls + 1 ≤ calls + (b + 1)
          omega
        · rw [if_neg h1]
          by_cases h2 : c.finish_reason = "content_filter"
          · rw [if_pos h2]
            show calls + 1 ≤ calls + (b + 1)
            omega
          · rw [if_neg h2]
            show calls + 1 ≤ calls + (b + 1)
            omega

theorem agentGo_calls_ge (exec : String → Json → Json) (responses : ℕ → ModelTurn) :
    ∀ (b : ℕ) (msgs : List ChatMsg) (warns : List String) (calls : ℕ),
      calls ≤ (agentGo exec responses b msgs warns calls).calls := by
  intro b
  induction b with
  | zero =>
    intro msgs warns calls
    simp [agentGo]
  | succ b ih =>
    intro msgs warns calls
    simp only [agentGo]
    rcases responses calls with e | _ | c
    · show calls ≤ calls + 1
      omega
    · show calls ≤ calls + 1
      omega
    · simp only
      by_cases htc : (c.message.getD { content := some "", tool_calls := none }).tool_calls.getD []
          ≠ []
      · rw [if_pos htc]
        calc calls ≤ calls + 1 := by omega
          _ ≤ (agentGo exec responses b _ warns (calls + 1)).calls := ih _ _ _
      · rw [if_neg htc]
        by_cases h1 : c.finish_reason = "stop" ∨ c.finish_reason = "length"
        · rw [if_pos h1]
          show calls ≤ calls + 1
          omega
        · rw [if_neg h1]
          by_cases h2 : c.finish_reason = "content_filter"
          · rw [if_pos h2]
            show calls ≤ calls + 1
            omega
          · rw [if_neg h2]
            show calls ≤ calls + 1
            omega

theorem agentGo_msgs_mono (exec : String → Json → Json) (responses : ℕ → ModelTurn) :
    ∀ (b : ℕ) (msgs : List ChatMsg) (warns : List String) (calls : ℕ),
      ∃ t, (agentGo exec responses b msgs warns calls).messages = msgs ++ t := by
  intro b
  induction b with
  | zero =>
    intro msgs warns calls
    exact ⟨[], by simp [agentGo]⟩
  | succ b ih =>
    intro msgs warns calls
    simp only [agentGo]
    rcases responses calls with e | _ | c
    · exact ⟨[], by simp⟩
    · exact ⟨[], by simp⟩
    · simp only
      by_cases htc : (c.message.getD { content := some "", tool_calls := none }).tool_calls.getD []
          ≠ []
      · rw [if_pos htc]
        obtain ⟨t, ht⟩ := ih (msgs
          ++ [{ role := "assistant",
                content := (c.message.getD { content := some "", tool_calls := none }).content.getD "",
                tool_calls := some ((c.message.getD { content := some "", tool_calls := none }).tool_calls.getD []) }]
          ++ ((c.message.getD { content := some "", tool_calls := none }).tool_calls.getD []).map (toolResponseMsg exec))
          warns (calls + 1)
        exact ⟨_, by rw [ht, List.append_assoc, List.append_assoc]⟩
      · rw [if_neg htc]
        by_cases h1 : c.finish_reason = "stop" ∨ c.finish_reason = "length"
        · rw [if_pos h1]
          exact ⟨[], by simp⟩
        · rw [if_neg h1]
          by_cases h2 : c.finish_reason = "content_filter"
          · rw [if_pos h2]
            exact ⟨[], by simp⟩
          · rw [if_neg h2]
            exact ⟨[], by simp⟩

theorem agentGo_calls_succ (exec : String → Json → Json) (responses : ℕ → ModelTurn)
    (b : ℕ) (msgs : List ChatMsg) (warns : List String) (calls : ℕ) (hb : 1 ≤ b) :
    calls + 1 ≤ (agentGo exec responses b msgs warns calls).calls := by
  cases b with
  | zero => omega
  | succ b =>
    simp only [agentGo]
    rcases responses calls with e | _ | c
    · show calls + 1 ≤ calls + 1
      omega
    · show calls + 1 ≤ calls + 1
      omega
    · simp only
      by_cases htc : (c.message.getD { content := some "", tool_calls := none }).tool_calls.getD []
          ≠ []
      · rw [if_pos htc]
        exact agentGo_calls_ge exec responses b _ warns (calls + 1)
      · rw [if_neg htc]
        by_cases h1 : c.finish_reason = "stop" ∨ c.finish_reason = "length"
        · rw [if_pos h1]
        · rw [if_neg h1]
          by_cases h2 : c.finish_reason = "content_filter"
          · rw [if_pos h2]
          · rw [if_neg h2]

theorem agentGo_no_completion (exec : String → Json → Json) (responses : ℕ → ModelTurn) :
    ∀ (b : ℕ) (msgs : List ChatMsg) (warns : List String) (calls : ℕ),
      (∀ i, calls ≤ i → i < calls + b → isStopOrLength (responses i) = false) →
      ∃ w, (agentGo exec responses b msgs warns calls).result = failResult w := by
  intro b
  induction b with
  | zero =>
    intro msgs warns calls _
    exact ⟨warns, by simp [agentGo]⟩
  | succ b ih =>
    intro msgs warns calls h
    simp only [agentGo]
    rcases hresp : responses calls with e | _ | c
    · exact ⟨warns ++ [e], rfl⟩
    · exact ⟨warns ++ ["OpenAI API returned no choices"], rfl⟩
    · simp only
      by_cases htc : (c.message.getD { content := some "", tool_calls := none }).tool_calls.getD []
          ≠ []
      · rw [if_pos htc]
        exact ih _ warns (calls + 1) (fun i h1 h2 => h i (by omega) (by omega))
      · rw [if_neg htc]
        by_cases h1 : c.finish_reason = "stop" ∨ c.finish_reason = "length"
        · exfalso
          have hfalse := h calls (le_refl calls) (by omega)
          rw [hresp] at hfalse
          simp only [isStopOrLength] at hfalse
          rcases h1 with h1 | h1 <;> simp [h1] at hfalse
        · rw [if_neg h1]
          by_cases h2 : c.finish_reason = "content_filter"
          · rw [if_pos h2]
            exact ⟨_, rfl⟩
          · rw [if_neg h2]
            exact ⟨_, rfl⟩

theorem agentGo_unknown_tool (exec : String → Json → Json) (responses : ℕ → ModelTurn) :
    ∀ (b : ℕ) (msgs : List ChatMsg) (warns : List String) (calls i : ℕ)
      (c : Choice) (m : ChoiceMessage) (tcs : List ToolCall) (tc : ToolCall),
      calls ≤ i → i < (agentGo exec responses b msgs warns calls).calls →
      responses i = .choice c → c.message = some m → m.tool_calls = some tcs →
      tc ∈ tcs → tc.name ∉ registeredToolNames →
      toolErrorMsg tc ∈ (agentGo exec responses b msgs warns calls).messages ∧
        (i + 1 < calls + b → i + 1 < (agentGo exec responses b msgs warns calls).calls) := by
  intro b
  induction b with
  | zero =>
    intro msgs warns calls i c m tcs tc hle hlt _ _ _ _ _
    exfalso
    simp [agentGo] at hlt
    omega
  | succ b ih =>
    intro msgs warns calls i c m tcs tc hle hlt hresp hmsg htcs htmem hnotreg
    have htcsne : tcs ≠ [] := List.ne_nil_of_mem htmem
    simp only [agentGo] at hlt ⊢
    rcases hr : responses calls with e | _ | c'
    all_goals rw [hr] at hlt
    · -- apiError: only one call was made, so i = calls, contradicting the choice shape
      exfalso
      simp only at hlt
      have hi : i = calls := by omega
      rw [hi, hr] at hresp
      cases hresp
    · exfalso
      simp only at hlt
      have hi : i = calls := by omega
      rw [hi, hr] at hresp
      cases hresp
    · simp only at hlt ⊢
      by_cases htc : (c'.message.getD { content := some "", tool_calls := none }).tool_calls.getD []
          ≠ []
      · rw [if_pos htc] at hlt ⊢
        rcases Nat.lt_or_ge calls i with hgt | hge2
        · -- the unknown-tool turn lies strictly later: apply the induction hypothesis
          have := ih _ warns (calls + 1) i c m tcs tc (by omega) hlt hresp hmsg htcs htmem hnotreg
          exact ⟨this.1, fun hb2 => this.2 (by omega)⟩
        · -- this very turn is the unknown-tool turn
          have hi : i = calls := by omega
          rw [hi, hr] at hresp
          cases hresp
          rw [hmsg] at htc ⊢
          simp only [Option.getD_some] at htc ⊢
          rw [htcs] at htc ⊢
          simp only [Option.getD_some] at htc ⊢
          constructor
          · -- the tool error message is appended now and survives to the end
            have hmem1 : toolErrorMsg tc ∈ tcs.map (toolResponseMsg exec) := by
              rw [List.mem_map]
              refine ⟨tc, htmem, ?_⟩
              unfold toolResponseMsg toolErrorMsg toolResultJson
              rw [show registeredToolNames.contains tc.name = false by
                simpa using hnotreg]
              simp
            obtain ⟨t, ht⟩ := agentGo_msgs_mono exec responses b
              (msgs ++ [{ role := "assistant", content := m.content.getD "",
                          tool_calls := some tcs }] ++ tcs.map (toolResponseMsg exec))
              warns (calls + 1)
            rw [ht]
            simp only [List.mem_append]
            exact Or.inl (Or.inr hmem1)
          · intro hb2
            have hb1 : 1 ≤ b := by omega
            refine lt_of_lt_of_le ?_
              (agentGo_calls_succ exec responses b _ warns (calls + 1) hb1)
            omega
      · -- a non-tool-call turn: it must be a later turn, but only one call was made
        exfalso
        rw [if_neg htc] at hlt
        by_cases h1 : c'.finish_reason = "stop" ∨ c'.finish_reason = "length"
        · rw [if_pos h1] at hlt
          simp only at hlt
          have hi : i = calls := by omega
          rw [hi, hr] at hresp
          cases hresp
          rw [hmsg] at htc
          simp only [Option.getD_some] at htc
          rw [htcs] at htc
          simp at htc
          exact htcsne htc
        · rw [if_neg h1] at hlt
          by_cases h2 : c'.finish_reason = "content_filter"
          · rw [if_pos h2] at hlt
            simp only at hlt
            have hi : i = calls := by omega
            rw [hi, hr] at hresp
            cases hresp
            rw [hmsg] at htc
            simp only [Option.getD_some] at htc
            rw [htcs] at htc
            simp at htc
            exact htcsne htc
          · rw [if_neg h2] at hlt
            simp only at hlt
            have hi : i = calls := by omega
            rw [hi, hr] at hresp
            cases hresp
            rw [hmsg] at htc
            simp only [Option.getD_some] at htc
            rw [htcs] at htc
            simp at htc
            exact htcsne htc

/-! ## Remaining helper lemmas -/

theorem normalize_length_le (items : List RawItem) :
    (normalizeAndDedupeListings items).length ≤ MAX_LISTINGS := by
  unfold normalizeAndDedupeListings
  rw [List.length_take]
  exact min_le_left _ _

theorem normalize_singleton (r : RawRecord) :
    normalizeAndDedupeListings [.obj r] = [normalizeRecord r] := by
  unfold normalizeAndDedupeListings
  simp only [normGo, List.lookup]
  rw [if_neg (by simp [MAX_LISTINGS])]
  rfl

theorem url_key_ne_idx_key (a b : String) : "URL:" ++ a ≠ "IDX:" ++ b := by
  intro h
  have hd := congrArg String.data h
  rw [String.data_append, String.data_append] at hd
  rw [show ("URL:" : String).data = ['U', 'R', 'L', ':'] from rfl,
      show ("IDX:" : String).data = ['I', 'D', 'X', ':'] from rfl] at hd
  simp only [List.cons_append, List.nil_append] at hd
  injection hd with h1 _
  exact absurd h1 (by decide)

theorem recordKey_noMls {r : RawRecord} (hm : strTruthy (resolveMls r) = false) (n : ℕ) :
    recordKey r n =
      (if strTruthy (trimIfTruthy r.url) then "URL:" ++ (trimIfTruthy r.url).getD ""
       else "IDX:" ++ natToDecString n) := by
  have hurl : ∀ goalFromUrl : String → String,
      (match trimIfTruthy r.url with
        | some u => if u ≠ "" then "URL:" ++ u else "IDX:" ++ natToDecString n
        | none => "IDX:" ++ natToDecString n)
      = (if strTruthy (trimIfTruthy r.url) then "URL:" ++ (trimIfTruthy r.url).getD ""
         else "IDX:" ++ natToDecString n) := by
    intro _
    rcases huu : trimIfTruthy r.url with _ | u
    · simp [strTruthy]
    · by_cases hu : u = ""
      · subst hu
        simp [strTruthy]
      · simp [strTruthy, hu]
  unfold recordKey
  rcases hmm : resolveMls r with _ | m
  · rcases huu : trimIfTruthy r.url with _ | u
    · simp [strTruthy]
    · by_cases hu : u = ""
      · subst hu
        simp [strTruthy]
      · simp [strTruthy, hu]
  · rw [hmm] at hm
    have hme : m = "" := by simpa [strTruthy] using hm
    subst hme
    simp only
    rw [if_neg (by simp)]
    exact hurl id

theorem jsonEscape_foldl_acc (l : List Char) :
    ∀ acc : String, l.foldl (fun acc c => acc ++ jsonEscapeChar c) acc
      = acc ++ l.foldl (fun acc c => acc ++ jsonEscapeChar c) "" := by
  induction l with
  | nil => intro acc; simp
  | cons c t ih =>
    intro acc
    rw [List.foldl_cons, List.foldl_cons, ih (acc ++ jsonEscapeChar c),
      ih ("" ++ jsonEscapeChar c)]
    apply String.ext
    simp [String.data_append]

theorem jsonEscape_append (a b : String) :
    jsonEscape (a ++ b) = jsonEscape a ++ jsonEscape b := by
  unfold jsonEscape
  rw [String.data_append, List.foldl_append, jsonEscape_foldl_acc]

theorem jsonEscape_id_of_plain {s : String}
    (h : ∀ c ∈ s.data, jsonEscapeChar c = String.mk [c]) : jsonEscape s = s := by
  unfold jsonEscape
  have haux : ∀ (l : List Char), (∀ c ∈ l, jsonEscapeChar c = String.mk [c]) →
      ∀ acc : String, l.foldl (fun acc c => acc ++ jsonEscapeChar c) acc = acc ++ String.mk l := by
    intro l
    induction l with
    | nil =>
      intro _ acc
      apply String.ext
      rw [String.data_append]
      simp
    | cons c t ih =>
      intro hall acc
      rw [List.foldl_cons, hall c (by simp), ih (fun x hx => hall x (by simp [hx]))]
      apply String.ext
      rw [String.data_append, String.data_append, String.data_append]
      simp
  have := haux s.data h ""
  rw [this]
  apply String.ext
  rw [String.data_append]
  simp

/-! ## Claim theorems -/

/-- Claim C5 (confirmed): for every input list of raw listing records, of any
length, the output of `normalizeAndDedupeListings` contains at most 12
records. -/
theorem claim_c5_output_capped (items : List RawItem) :
    (normalizeAndDedupeListings items).length ≤ 12 :=
  normalize_length_le items

/-- Claim C10 (confirmed): a present `beds` field whose string form contains
no digit characters normalizes to the number 0 (not absent); likewise a
present `baths` field with no digit and no decimal-point characters. -/
theorem claim_c10_digitless_zero (r : RawRecord) :
    (r.beds.isNullish = false → (∀ c ∈ (jsToString r.beds).data, c.isDigit = false) →
      (normalizeAndDedupeListings [.obj r]).map (fun nl => nl.beds) = [some (.num 0)]) ∧
    (r.baths.isNullish = false →
      (∀ c ∈ (jsToString r.baths).data, c.isDigit = false ∧ c ≠ '.') →
      (normalizeAndDedupeListings [.obj r]).map (fun nl => nl.baths) = [some (.num 0)]) := by
  rw [normalize_singleton]
  constructor
  · intro hn hd
    have hfe : filterDigits (jsToString r.beds) = "" := by
      unfold filterDigits
      rw [List.filter_eq_nil_iff.2 (fun c hc => by simp [hd c hc])]
    have hbeds : (normalizeRecord r).beds
        = some (parseNumber (filterDigits (jsToString r.beds))) := by
      have hdef : (normalizeRecord r).beds =
          (if r.beds.isNullish then none
           else some (parseNumber (filterDigits (jsToString r.beds)))) := rfl
      rw [hdef, hn]
      rfl
    rw [List.map_singleton, hbeds, hfe]
    rfl
  · intro hn hd
    have hfe : filterDigitsDot (jsToString r.baths) = "" := by
      unfold filterDigitsDot
      rw [List.filter_eq_nil_iff.2 (fun c hc => by simp [(hd c hc).1, (hd c hc).2])]
    have hbaths : (normalizeRecord r).baths
        = some (parseNumber (filterDigitsDot (jsToString r.baths))) := by
      have hdef : (normalizeRecord r).baths =
          (if r.baths.isNullish then none
           else some (parseNumber (filterDigitsDot (jsToString r.baths)))) := rfl
      rw [hdef, hn]
      rfl
    rw [List.map_singleton, hbaths, hfe]
    rfl

/-- Claim C10 witness: `beds: "studio"` and `baths: "two"` both normalize to
the number 0. -/
theorem claim_c10_witness :
    ((JSVal.vStr "studio").isNullish = false ∧
      ∀ c ∈ (jsToString (JSVal.vStr "studio")).data, c.isDigit = false) ∧
    ((JSVal.vStr "two").isNullish = false ∧
      (∀ c ∈ (jsToString (JSVal.vStr "two")).data, c.isDigit = false ∧ c ≠ '.')) ∧
    (normalizeAndDedupeListings [.obj { beds := .vStr "studio", baths := .vStr "two" }]).map
      (fun nl => nl.beds) = [some (.num 0)] ∧
    (normalizeAndDedupeListings [.obj { beds := .vStr "studio", baths := .vStr "two" }]).map
      (fun nl => nl.baths) = [some (.num 0)] :=
  ⟨⟨rfl, by decide⟩, ⟨rfl, by decide⟩,
    (claim_c10_digitless_zero { beds := .vStr "studio", baths := .vStr "two" }).1 rfl (by decide),
    (claim_c10_digitless_zero { beds := .vStr "studio", baths := .vStr "two" }).2 rfl (by decide)⟩

/-- Claim C4 counterexample: the claim says every normalized price is a
nonnegative finite number or absent, but the direct numeric path stores
`Number(record.price)` unchecked: `price: "abc"` stores NaN and
`price: -5` stores a negative number. -/
theorem claim_c4_counterexample :
    (normalizeAndDedupeListings [.obj { mls := .vStr "A", price := .vStr "abc" }]).map
      (fun nl => nl.price) = [some JNum.nan] ∧
    (normalizeAndDedupeListings [.obj { mls := .vStr "Z", price := .vNum (.num (-5)) }]).map
      (fun nl => nl.price) = [some (.num (-5))] ∧
    JNum.nan.isFinite = false ∧ ((-5 : ℚ) < 0) := by
  refine ⟨by decide, by decide, rfl, by norm_num⟩

/-- Claim C4 (amended): on the free-text price path (no direct numeric
`price` field), the normalized price is a nonnegative finite number or
absent; the direct path stores `Number(record.price)` without a finiteness
or sign check. -/
theorem claim_c4_freetext_price (r : RawRecord) (h : r.price.isNullish = true) :
    ∀ nl ∈ normalizeAndDedupeListings [.obj r],
      nl.price = none ∨ ∃ q : ℚ, nl.price = some (.num q) ∧ 0 ≤ q := by
  rw [normalize_singleton]
  intro nl hnl
  rw [List.mem_singleton.1 hnl]
  have hdef : (normalizeRecord r).price =
      (if !r.price.isNullish then some (jsToNumber r.price)
       else numberFromPriceLike (firstStr r.priceText r.price_str r.askingPrice)) := rfl
  rw [hdef, h]
  simp only [Bool.not_true, Bool.false_eq_true, if_false]
  unfold numberFromPriceLike
  rcases firstStr r.priceText r.price_str r.askingPrice with _ | str
  · exact Or.inl rfl
  · simp only
    by_cases h1 : str = ""
    · rw [if_pos h1]
      exact Or.inl rfl
    · rw [if_neg h1]
      by_cases h2 : filterDigits str = ""
      · rw [if_pos h2]
        exact Or.inl rfl
      · rw [if_neg h2]
        obtain ⟨n, hn⟩ := parseNumber_filterDigits str
        rw [hn]
        simp only [JNum.isFinite, if_pos rfl]
        exact Or.inr ⟨n, rfl, by positivity⟩

/-- Claim C4 witness: a record with only `priceText: "CA$1,200"` gets a
nonnegative finite price. -/
theorem claim_c4_witness :
    ((JSVal.vUndef.isNullish = true) ∧
      ∀ nl ∈ normalizeAndDedupeListings [.obj { priceText := some "CA$1,200" }],
        nl.price = none ∨ ∃ q : ℚ, nl.price = some (.num q) ∧ 0 ≤ q) :=
  ⟨rfl, claim_c4_freetext_price { priceText := some "CA$1,200" } rfl⟩

/-- Claim C2 counterexample: the claim says a duplicate arriving after the
12-record cap is still merged into its original, but the loop breaks the
moment 12 distinct records are accepted: the later duplicate carrying
`address: "X"` is never processed, and the first record keeps no address. -/
theorem claim_c2_counterexample :
    (normalizeAndDedupeListings
        ((List.range 12).map (fun i => mkMlsItem ("M" ++ natToDecString i))
          ++ [.obj { mls := .vStr "M0", address := .vStr "X" }])).map
        (fun nl => (nl.mls, nl.address))
      = (List.range 12).map (fun i => ("M" ++ natToDecString i, (none : Option String))) := by
  decide

/-- Claim C2 (amended): once 12 distinct records have been accepted the loop
stops entirely: every later input record — duplicate or new — is ignored,
so duplicates are not merged past the cap and no new record is added. -/
theorem claim_c2_cap_stops_processing (xs extra : List RawItem)
    (h : (normalizeAndDedupeListings xs).length = 12) :
    normalizeAndDedupeListings (xs ++ extra) = normalizeAndDedupeListings xs := by
  unfold normalizeAndDedupeListings at h ⊢
  have hle : (normGo xs [] []).length ≤ MAX_LISTINGS :=
    normGo_length_le xs [] [] (by simp [MAX_LISTINGS])
  have hfull : (normGo xs [] []).length = MAX_LISTINGS := by
    rw [List.length_take] at h
    simp [MAX_LISTINGS] at hle ⊢
    omega
  rw [normGo_append_of_full xs extra [] [] (by simp [MAX_LISTINGS]) hfull]

/-- Claim C2 witness: twelve distinct records followed by a duplicate; the
run over the extended list equals the run over the first twelve. -/
theorem claim_c2_witness :
    ((normalizeAndDedupeListings
        ((List.range 12).map (fun i => mkMlsItem ("M" ++ natToDecString i)))).length = 12) ∧
    normalizeAndDedupeListings
        ((List.range 12).map (fun i => mkMlsItem ("M" ++ natToDecString i))
          ++ [.obj { mls := .vStr "M0", address := .vStr "X" }])
      = normalizeAndDedupeListings
          ((List.range 12).map (fun i => mkMlsItem ("M" ++ natToDecString i))) :=
  ⟨by decide, claim_c2_cap_stops_processing _ _ (by decide)⟩

theorem normGo_two (r₁ r₂ : RawRecord) :
    normalizeAndDedupeListings [.obj r₁, .obj r₂] =
      (if recordKey r₂ 1 = recordKey r₁ 0
       then [mergeListing (normalizeRecord r₁) (normalizeRecord r₂)]
       else [normalizeRecord r₁, normalizeRecord r₂]) := by
  unfold normalizeAndDedupeListings
  simp only [normGo, List.lookup, List.nil_append, List.length_singleton,
    List.length_nil]
  by_cases hk : recordKey r₂ 1 = recordKey r₁ 0
  · rw [if_pos hk, beq_iff_eq.2 hk]
    simp [MAX_LISTINGS]
  · rw [if_neg hk, beq_eq_false_iff_ne.2 hk]
    simp [MAX_LISTINGS]
/-- Claim C1 (counterexample): with a model that requests a tool call on
every turn (never a `stop`/`length` finish reason), the loop exhausts its
6-turn budget and returns empty listings with an EMPTY warnings list — the
budget-exhaustion exit falls out of the `while` loop without pushing any
warning, contradicting the claimed non-empty warnings sequence. -/
theorem claim_c1_counterexample :
    (∀ i, isStopOrLength (((fun _ => searchToolTurn) : ℕ → ModelTurn) i) = false) ∧
    (runListingAgent true trivialExec (fun _ : ℕ => searchToolTurn) "find a condo" emptyCriteria).result.listings = [] ∧
    (runListingAgent true trivialExec (fun _ : ℕ => searchToolTurn) "find a condo" emptyCriteria).result.warnings = [] ∧
    (runListingAgent true trivialExec (fun _ : ℕ => searchToolTurn) "find a condo" emptyCriteria).calls ≤ 6 :=
  ⟨fun _ => rfl, by rfl, by rfl, by decide⟩

/-- Claim C1 (amended): for every response sequence with no `stop`/`length`
finish reason within the 6-turn budget, `runListingAgent` (with an API key
configured) returns the empty fail result — empty listings and sources,
whatever warnings accumulated, possibly none — and issues at most 6
chat-completion calls, hence no 7th call. -/
theorem claim_c1_budget_exhaustion (exec : String → Json → Json)
    (responses : ℕ → ModelTurn) (prompt : String) (criteria : ListingCriteria)
    (h : ∀ i, i < MAX_AGENT_STEPS → isStopOrLength (responses i) = false) :
    (∃ w, (runListingAgent true exec responses prompt criteria).result = failResult w) ∧
    (runListingAgent true exec responses prompt criteria).calls ≤ MAX_AGENT_STEPS := by
  constructor
  · unfold runListingAgent
    rw [if_neg (by simp)]
    exact agentGo_no_completion exec responses MAX_AGENT_STEPS _ [] 0
      (fun i h1 h2 => h i (by omega))
  · unfold runListingAgent
    rw [if_neg (by simp)]
    simpa using agentGo_calls_le exec responses MAX_AGENT_STEPS _ [] 0

/-- Witness for the amended C1 theorem at the all-tool-call response
sequence. -/
theorem claim_c1_witness :
    (∀ i, i < MAX_AGENT_STEPS → isStopOrLength (((fun _ => searchToolTurn) : ℕ → ModelTurn) i) = false) ∧
    ((∃ w, (runListingAgent true trivialExec (fun _ : ℕ => searchToolTurn) "find a condo in Laval" emptyCriteria).result = failResult w) ∧
     (runListingAgent true trivialExec (fun _ : ℕ => searchToolTurn) "find a condo in Laval" emptyCriteria).calls ≤ MAX_AGENT_STEPS) :=
  ⟨fun _ _ => rfl,
   claim_c1_budget_exhaustion trivialExec (fun _ : ℕ => searchToolTurn)
     "find a condo in Laval" emptyCriteria (fun _ _ => rfl)⟩

/-- Claim C9 (confirmed): when the guardrail check reports no tripwire,
`runWorkflow` returns an `ok` outcome whose `output_text` is exactly the
`JSON.stringify` serialization of its `output_parsed` object, and
`output_parsed.hasResults` is `true` exactly when the normalized listings
list is non-empty. -/
theorem claim_c9_output_shape (gr : List GuardrailResult) (w : WorkflowInput)
    (hg : guardrailsHasTripwire gr = false) :
    ∃ out : WorkflowOutput,
      runWorkflow gr w = .ok (jsonStringify (encodeOutput out)) out ∧
      (out.hasResults = true ↔
        normalizeAndDedupeListings ((w.input_variables.getD {}).listings.getD []) ≠ []) := by
  unfold runWorkflow
  rw [if_neg (by simp [hg])]
  refine ⟨_, rfl, ?_⟩
  show decide (0 < (normalizeAndDedupeListings ((w.input_variables.getD {}).listings.getD [])).length) = true ↔ _
  rw [decide_eq_true_eq]
  exact List.length_pos

/-- Witness for the C9 theorem at the empty guardrail result and a bare
text input. -/
theorem claim_c9_witness :
    guardrailsHasTripwire [] = false ∧
    ∃ out : WorkflowOutput,
      runWorkflow [] ⟨"hello", none⟩ = .ok (jsonStringify (encodeOutput out)) out ∧
      (out.hasResults = true ↔
        normalizeAndDedupeListings (((⟨"hello", none⟩ : WorkflowInput).input_variables.getD {}).listings.getD []) ≠ []) :=
  ⟨rfl, claim_c9_output_shape [] ⟨"hello", none⟩ rfl⟩
/-- Claim C7 (counterexample): a record whose `mls` field is all whitespace
has no usable identifier — its dedup key falls through to the positional
key — yet its normalized `mls` is the empty string, not the bilingual
sentinel: the truthy raw value trims to `""`, and the `mls ?? sentinel`
fallback fires only on `null`. -/
theorem claim_c7_counterexample :
    strTruthy (resolveMls { mls := .vStr "   " }) = false ∧
    recordKey { mls := .vStr "   " } 0 = "IDX:" ++ natToDecString 0 ∧
    (normalizeRecord { mls := .vStr "   " }).mls ≠ mlsSentinel :=
  ⟨by decide, by decide, by decide⟩

/-- Claim C7 (amended): for raw records whose identifier aliases are all
nullish (`resolveMls` yields `null`), the normalized `mls` equals the
bilingual sentinel, and two such records are merged exactly when both
carry the same truthy URL — otherwise each keeps its own positional key
and its own output slot. -/
theorem claim_c7_sentinel_and_no_merge (r₁ r₂ : RawRecord)
    (hm₁ : resolveMls r₁ = none) (hm₂ : resolveMls r₂ = none) :
    (normalizeRecord r₁).mls = mlsSentinel ∧
    (normalizeRecord r₂).mls = mlsSentinel ∧
    (normalizeAndDedupeListings [.obj r₁, .obj r₂] =
        [mergeListing (normalizeRecord r₁) (normalizeRecord r₂)] ↔
      (strTruthy (trimIfTruthy r₁.url) = true ∧
        trimIfTruthy r₂.url = trimIfTruthy r₁.url)) := by
  have hst₁ : strTruthy (resolveMls r₁) = false := by rw [hm₁]; rfl
  have hst₂ : strTruthy (resolveMls r₂) = false := by rw [hm₂]; rfl
  refine ⟨?_, ?_, ?_⟩
  · show (jsOr (resolveMls r₁) (some mlsSentinel)).getD "" = mlsSentinel
    rw [hm₁]
    rfl
  · show (jsOr (resolveMls r₂) (some mlsSentinel)).getD "" = mlsSentinel
    rw [hm₂]
    rfl
  · rw [normGo_two, recordKey_noMls hst₁ 0, recordKey_noMls hst₂ 1]
    by_cases hb₁ : strTruthy (trimIfTruthy r₁.url) = true
    · by_cases hb₂ : strTruthy (trimIfTruthy r₂.url) = true
      · rw [if_pos hb₁, if_pos hb₂]
        rcases hu₁ : trimIfTruthy r₁.url with _ | u₁
        · rw [hu₁] at hb₁
          exact absurd hb₁ (by simp [strTruthy])
        · rcases hu₂ : trimIfTruthy r₂.url with _ | u₂
          · rw [hu₂] at hb₂
            exact absurd hb₂ (by simp [strTruthy])
          · simp only [Option.getD_some]
            by_cases hu : u₂ = u₁
            · subst hu
              rw [if_pos rfl]
              refine iff_of_true rfl ⟨?_, rfl⟩
              rw [hu₁] at hb₁
              exact hb₁
            · rw [if_neg (fun hc => hu (str_append_left_cancel hc))]
              constructor
              · intro hc
                exact absurd (congrArg List.length hc) (by simp)
              · intro hc
                exact absurd (Option.some.inj hc.2) hu
      · rw [if_pos hb₁, if_neg hb₂]
        rw [if_neg (fun hc => url_key_ne_idx_key _ _ hc.symm)]
        constructor
        · intro hc
          exact absurd (congrArg List.length hc) (by simp)
        · intro hc
          rw [hc.2] at hb₂
          exact absurd hc.1 hb₂
    · by_cases hb₂ : strTruthy (trimIfTruthy r₂.url) = true
      · rw [if_neg hb₁, if_pos hb₂]
        rw [if_neg (url_key_ne_idx_key _ _)]
        constructor
        · intro hc
          exact absurd (congrArg List.length hc) (by simp)
        · intro hc
          exact absurd hc.1 hb₁
      · rw [if_neg hb₁, if_neg hb₂]
        rw [if_neg (fun hc =>
          absurd (str_append_left_cancel hc) (by decide))]
        constructor
        · intro hc
          exact absurd (congrArg List.length hc) (by simp)
        · intro hc
          exact absurd hc.1 hb₁

/-- Witness for the amended C7 theorem: an empty record and a URL-only
record, which are not merged. -/
theorem claim_c7_witness :
    resolveMls noIdRecord = none ∧
    resolveMls urlOnlyRecord = none ∧
    ((normalizeRecord noIdRecord).mls = mlsSentinel ∧
     (normalizeRecord urlOnlyRecord).mls = mlsSentinel ∧
     (normalizeAndDedupeListings [.obj noIdRecord, .obj urlOnlyRecord] =
         [mergeListing (normalizeRecord noIdRecord) (normalizeRecord urlOnlyRecord)] ↔
       (strTruthy (trimIfTruthy noIdRecord.url) = true ∧
         trimIfTruthy urlOnlyRecord.url = trimIfTruthy noIdRecord.url))) :=
  ⟨rfl, rfl, claim_c7_sentinel_and_no_merge noIdRecord urlOnlyRecord rfl rfl⟩
/-- Claim C3 (counterexample): two records sharing the identifier `A1`
case-insensitively collapse to one output record, but the duplicate's
`url` — present in the second input and absent in the first — is NOT
carried into the output: the merge fills only the scalar facts and omits
`url` (and `mls`), so a field present in one input is lost. -/
theorem claim_c3_counterexample :
    (normalizeAndDedupeListings [.obj { mls := .vStr "A1" },
        .obj { mls := .vStr "a1", url := .vStr "https://x.example" }]).length = 1 ∧
    ({ mls := .vStr "a1", url := .vStr "https://x.example" } : RawRecord).url.truthy = true ∧
    (normalizeAndDedupeListings [.obj { mls := .vStr "A1" },
        .obj { mls := .vStr "a1", url := .vStr "https://x.example" }]).map NormalizedListing.url
      = [none] :=
  ⟨by decide, by decide, by decide⟩

/-- Claim C3 (amended): two raw records with truthy identifiers equal up to
case produce exactly the one merged record; the merge keeps the first
record as the base and fills each absent scalar field (`address`, `price`,
`beds`, `baths`, `type`, `note_fr`, `note_en`) from the duplicate,
first-write-wins, while `mls` and `url` are taken from the first record
only. -/
theorem claim_c3_merged_pair (r₁ r₂ : RawRecord)
    (h₁ : strTruthy (resolveMls r₁) = true) (h₂ : strTruthy (resolveMls r₂) = true)
    (hk : jsToUpper ((resolveMls r₂).getD "") = jsToUpper ((resolveMls r₁).getD "")) :
    normalizeAndDedupeListings [.obj r₁, .obj r₂] =
      [mergeListing (normalizeRecord r₁) (normalizeRecord r₂)] ∧
    (mergeListing (normalizeRecord r₁) (normalizeRecord r₂)).mls = (normalizeRecord r₁).mls ∧
    (mergeListing (normalizeRecord r₁) (normalizeRecord r₂)).url = (normalizeRecord r₁).url ∧
    (mergeListing (normalizeRecord r₁) (normalizeRecord r₂)).address =
      jsOr (normalizeRecord r₁).address (normalizeRecord r₂).address ∧
    (mergeListing (normalizeRecord r₁) (normalizeRecord r₂)).price =
      jsOr (normalizeRecord r₁).price (normalizeRecord r₂).price ∧
    (mergeListing (normalizeRecord r₁) (normalizeRecord r₂)).beds =
      jsOr (normalizeRecord r₁).beds (normalizeRecord r₂).beds ∧
    (mergeListing (normalizeRecord r₁) (normalizeRecord r₂)).baths =
      jsOr (normalizeRecord r₁).baths (normalizeRecord r₂).baths ∧
    (mergeListing (normalizeRecord r₁) (normalizeRecord r₂)).type =
      jsOr (normalizeRecord r₁).type (normalizeRecord r₂).type ∧
    (mergeListing (normalizeRecord r₁) (normalizeRecord r₂)).note_fr =
      jsOr (normalizeRecord r₁).note_fr (normalizeRecord r₂).note_fr ∧
    (mergeListing (normalizeRecord r₁) (normalizeRecord r₂)).note_en =
      jsOr (normalizeRecord r₁).note_en (normalizeRecord r₂).note_en := by
  have hkey : recordKey r₂ 1 = recordKey r₁ 0 := by
    rw [recordKey_mls h₂ 1, recordKey_mls h₁ 0, hk]
  refine ⟨?_, rfl, rfl, rfl, rfl, rfl, rfl, rfl, rfl, rfl⟩
  rw [normGo_two, if_pos hkey]

/-- Witness for the amended C3 theorem at two records whose identifiers
differ only in case. -/
theorem claim_c3_witness :
    strTruthy (resolveMls recA1) = true ∧ strTruthy (resolveMls recA1dup) = true ∧
    jsToUpper ((resolveMls recA1dup).getD "") = jsToUpper ((resolveMls recA1).getD "") ∧
    (normalizeAndDedupeListings [.obj recA1, .obj recA1dup] =
        [mergeListing (normalizeRecord recA1) (normalizeRecord recA1dup)] ∧
      (mergeListing (normalizeRecord recA1) (normalizeRecord recA1dup)).mls = (normalizeRecord recA1).mls ∧
      (mergeListing (normalizeRecord recA1) (normalizeRecord recA1dup)).url = (normalizeRecord recA1).url ∧
      (mergeListing (normalizeRecord recA1) (normalizeRecord recA1dup)).address =
        jsOr (normalizeRecord recA1).address (normalizeRecord recA1dup).address ∧
      (mergeListing (normalizeRecord recA1) (normalizeRecord recA1dup)).price =
        jsOr (normalizeRecord recA1).price (normalizeRecord recA1dup).price ∧
      (mergeListing (normalizeRecord recA1) (normalizeRecord recA1dup)).beds =
        jsOr (normalizeRecord recA1).beds (normalizeRecord recA1dup).beds ∧
      (mergeListing (normalizeRecord recA1) (normalizeRecord recA1dup)).baths =
        jsOr (normalizeRecord recA1).baths (normalizeRecord recA1dup).baths ∧
      (mergeListing (normalizeRecord recA1) (normalizeRecord recA1dup)).type =
        jsOr (normalizeRecord recA1).type (normalizeRecord recA1dup).type ∧
      (mergeListing (normalizeRecord recA1) (normalizeRecord recA1dup)).note_fr =
        jsOr (normalizeRecord recA1).note_fr (normalizeRecord recA1dup).note_fr ∧
      (mergeListing (normalizeRecord recA1) (normalizeRecord recA1dup)).note_en =
        jsOr (normalizeRecord recA1).note_en (normalizeRecord recA1dup).note_en) :=
  ⟨by decide, by decide, by decide,
   claim_c3_merged_pair recA1 recA1dup (by decide) (by decide) (by decide)⟩
/-- Claim C6 (counterexample): the output of normalizing a record whose
`mls` trims to the empty string has pairwise-distinct identifiers (it is a
single record), yet feeding it back through the normalizer changes it: the
empty `mls` reads back as falsy, so the re-normalized record receives the
sentinel identifier instead. -/
theorem claim_c6_counterexample :
    (((normalizeAndDedupeListings [mkMlsItem "   "]).map
        (fun y => jsToUpper y.mls)).Pairwise (· ≠ ·)) ∧
    normalizeAndDedupeListings
        ((normalizeAndDedupeListings [mkMlsItem "   "]).map (fun y => .obj (toRaw y))) ≠
      normalizeAndDedupeListings [mkMlsItem "   "] :=
  ⟨by decide, by decide⟩

/-- Claim C6 (amended): re-normalizing the normalizer's own output is the
identity provided every output identifier is non-empty, the uppercased
identifiers are pairwise distinct, no optional string field holds the
empty string, no `baths` value is NaN, and every `beds`/`baths` value lies
in the plain-decimal printing range of `Number::toString` (magnitude below
`1e21` and, unless zero, at least `1e-6`) — conditions under which every
record reads back exactly and no pair collides on a key. -/
theorem claim_c6_idempotent (xs : List RawItem)
    (hmls : ∀ y ∈ normalizeAndDedupeListings xs, y.mls ≠ "")
    (hdist : ((normalizeAndDedupeListings xs).map (fun y => jsToUpper y.mls)).Pairwise (· ≠ ·))
    (hne : ∀ y ∈ normalizeAndDedupeListings xs,
      y.url ≠ some "" ∧ y.address ≠ some "" ∧ y.type ≠ some "" ∧
        y.note_fr ≠ some "" ∧ y.note_en ≠ some "")
    (hbaths : ∀ y ∈ normalizeAndDedupeListings xs, y.baths ≠ some .nan)
    (hprint : ∀ y ∈ normalizeAndDedupeListings xs,
      y.beds.all JNum.inPlainRange = true ∧ y.baths.all JNum.inPlainRange = true) :
    normalizeAndDedupeListings
        ((normalizeAndDedupeListings xs).map (fun y => .obj (toRaw y))) =
      normalizeAndDedupeListings xs := by
  set ys := normalizeAndDedupeListings xs with hys
  have hgood : ∀ y ∈ ys, GoodListing y := fun y hy => good_normalize xs y hy
  have hres : ∀ y ∈ ys, resolveMls (toRaw y) = some y.mls :=
    fun y hy => resolveMls_toRaw (hgood y hy) (hmls y hy)
  have hlen : ys.length ≤ MAX_LISTINGS := normalize_length_le xs
  have hmapmap : ys.map (fun y => RawItem.obj (toRaw y)) = (ys.map toRaw).map .obj := by
    rw [List.map_map]
    rfl
  rw [hmapmap]
  have h1 : ∀ r ∈ ys.map toRaw, strTruthy (resolveMls r) = true := by
    intro r hr
    obtain ⟨y, hy, hyr⟩ := List.mem_map.1 hr
    subst hyr
    rw [hres y hy]
    simpa [strTruthy] using hmls y hy
  have h2 : ∀ r ∈ ys.map toRaw,
      ([] : List (String × ℕ)).lookup ("MLS:" ++ jsToUpper ((resolveMls r).getD "")) = none :=
    fun r _ => rfl
  have hmapkeys : (ys.map toRaw).map (fun r => "MLS:" ++ jsToUpper ((resolveMls r).getD ""))
      = (ys.map (fun y => jsToUpper y.mls)).map (fun s => "MLS:" ++ s) := by
    rw [List.map_map, List.map_map]
    apply List.map_congr_left
    intro y hy
    show "MLS:" ++ jsToUpper ((resolveMls (toRaw y)).getD "") = "MLS:" ++ jsToUpper y.mls
    rw [hres y hy]
    rfl
  have h3 : ((ys.map toRaw).map
      (fun r => "MLS:" ++ jsToUpper ((resolveMls r).getD ""))).Pairwise (· ≠ ·) := by
    rw [hmapkeys]
    exact hdist.map _ (fun a b hab hc => hab (str_append_left_cancel hc))
  have h4 : ([] : List NormalizedListing).length + (ys.map toRaw).length ≤ MAX_LISTINGS := by
    simpa using hlen
  show (normGo ((ys.map toRaw).map .obj) [] []).take MAX_LISTINGS = ys
  rw [normGo_distinct (ys.map toRaw) [] [] h1 h2 h3 h4]
  rw [List.nil_append, List.map_map]
  have hrenorm : ys.map (normalizeRecord ∘ toRaw) = ys := by
    have : ys.map (normalizeRecord ∘ toRaw) = ys.map id := by
      apply List.map_congr_left
      intro y hy
      obtain ⟨hu, ha, hty, hf, he⟩ := hne y hy
      exact renorm_record (hgood y hy) (hmls y hy) hu ha hty hf he (hbaths y hy)
        (hprint y hy).1 (hprint y hy).2
    rw [this, List.map_id]
  rw [hrenorm]
  exact List.take_of_length_le hlen

/-- Witness for the amended C6 theorem at a single well-formed record. -/
theorem claim_c6_witness :
    (∀ y ∈ normalizeAndDedupeListings [mkMlsItem "A1"], y.mls ≠ "") ∧
    ((normalizeAndDedupeListings [mkMlsItem "A1"]).map
      (fun y => jsToUpper y.mls)).Pairwise (· ≠ ·) ∧
    (∀ y ∈ normalizeAndDedupeListings [mkMlsItem "A1"],
      y.url ≠ some "" ∧ y.address ≠ some "" ∧ y.type ≠ some "" ∧
        y.note_fr ≠ some "" ∧ y.note_en ≠ some "") ∧
    (∀ y ∈ normalizeAndDedupeListings [mkMlsItem "A1"], y.baths ≠ some .nan) ∧
    (∀ y ∈ normalizeAndDedupeListings [mkMlsItem "A1"],
      y.beds.all JNum.inPlainRange = true ∧ y.baths.all JNum.inPlainRange = true) ∧
    normalizeAndDedupeListings
        ((normalizeAndDedupeListings [mkMlsItem "A1"]).map (fun y => .obj (toRaw y))) =
      normalizeAndDedupeListings [mkMlsItem "A1"] :=
  ⟨by decide, by decide, by decide, by decide, by decide,
   claim_c6_idempotent [mkMlsItem "A1"] (by decide) (by decide) (by decide) (by decide)
     (by decide)⟩
/-- Claim C8 (counterexample): for a tool name containing a double quote,
the appended tool message's content is the JSON-serialized error object, in
which the name appears escaped — so the content does NOT contain the
literal string `Unknown tool <name>`. -/
theorem claim_c8_counterexample :
    ¬ strContains (toolResponseMsg trivialExec ⟨"id1", "x\"y", ""⟩).content
      ("Unknown tool " ++ "x\"y") := by decide

/-- Claim C8 (amended): a tool call naming an unregistered tool makes the
loop append the tool-role error message (whose content serializes
`\x7berror: "Unknown tool <name>"\x7d`, with the name JSON-escaped) and
continue to the next model turn within the budget rather than fail; the
content contains the literal `Unknown tool <name>` whenever the name has no
JSON-escaping characters. -/
theorem claim_c8_unknown_tool (exec : String → Json → Json) (responses : ℕ → ModelTurn)
    (prompt : String) (criteria : ListingCriteria) (i : ℕ) (c : Choice) (m : ChoiceMessage)
    (tcs : List ToolCall) (tc : ToolCall)
    (hi : i < (runListingAgent true exec responses prompt criteria).calls)
    (hresp : responses i = .choice c) (hmsg : c.message = some m)
    (htcs : m.tool_calls = some tcs) (htmem : tc ∈ tcs)
    (hnotreg : tc.name ∉ registeredToolNames) :
    toolErrorMsg tc ∈ (runListingAgent true exec responses prompt criteria).messages ∧
    (i + 1 < MAX_AGENT_STEPS → i + 1 < (runListingAgent true exec responses prompt criteria).calls) ∧
    ((∀ ch ∈ tc.name.data, jsonEscapeChar ch = String.mk [ch]) →
      strContains (toolErrorMsg tc).content ("Unknown tool " ++ tc.name)) := by
  unfold runListingAgent at hi ⊢
  rw [if_neg (by simp)] at hi ⊢
  have hmain := agentGo_unknown_tool exec responses MAX_AGENT_STEPS
    (initialMessages prompt criteria) [] 0 i c m tcs tc (Nat.zero_le i) hi
    hresp hmsg htcs htmem hnotreg
  refine ⟨hmain.1, fun h6 => hmain.2 (by omega), ?_⟩
  intro hplain
  have hesc : jsonEscape ("Unknown tool " ++ tc.name) = "Unknown tool " ++ tc.name := by
    rw [jsonEscape_append, jsonEscape_id_of_plain hplain]
    rw [show jsonEscape "Unknown tool " = "Unknown tool " from by decide]
  have hcontent : (toolErrorMsg tc).content
      = "\x7b" ++ ("\"" ++ jsonEscape "error" ++ "\"" ++ ":"
          ++ ("\"" ++ ("Unknown tool " ++ tc.name) ++ "\"")) ++ "\x7d" := by
    show jsonStringify (.obj [("error", .str ("Unknown tool " ++ tc.name))]) = _
    simp only [jsonStringify, stringifyFields, jsonQuote]
    rw [hesc]
  show ("Unknown tool " ++ tc.name).data <:+: ((toolErrorMsg tc).content).data
  rw [hcontent]
  refine ⟨("\x7b" ++ ("\"" ++ jsonEscape "error" ++ "\"" ++ ":" ++ "\"")).data,
    ("\"" ++ "\x7d").data, ?_⟩
  simp only [String.data_append, List.append_assoc]

/-- Witness for the amended C8 theorem: the first model turn requests the
unregistered tool `mystery_tool` and the loop issues a second model call. -/
theorem claim_c8_witness :
    (0 < (runListingAgent true trivialExec mysteryResponses "p" emptyCriteria).calls) ∧
    mysteryResponses 0 = .choice mysteryChoice ∧
    mysteryChoice.message = some mysteryMsg ∧
    mysteryMsg.tool_calls = some [mysteryToolCall] ∧
    mysteryToolCall ∈ [mysteryToolCall] ∧
    mysteryToolCall.name ∉ registeredToolNames ∧
    (toolErrorMsg mysteryToolCall ∈
        (runListingAgent true trivialExec mysteryResponses "p" emptyCriteria).messages ∧
      (0 + 1 < MAX_AGENT_STEPS →
        0 + 1 < (runListingAgent true trivialExec mysteryResponses "p" emptyCriteria).calls) ∧
      ((∀ ch ∈ mysteryToolCall.name.data, jsonEscapeChar ch = String.mk [ch]) →
        strContains (toolErrorMsg mysteryToolCall).content
          ("Unknown tool " ++ mysteryToolCall.name))) :=
  ⟨by decide, rfl, rfl, rfl, by decide, by decide,
   claim_c8_unknown_tool trivialExec mysteryResponses "p" emptyCriteria 0
     mysteryChoice mysteryMsg [mysteryToolCall] mysteryToolCall
     (by decide) rfl rfl rfl (by decide) (by decide)⟩
